import Mathlib

/-!
Verification model of the `augentic/omnia` host runtime.

This file shallowly embeds the parts of the repository needed to settle the
frozen claims:

* the ORM query builders (`crates/orm`): `Filter`, `Join`, `SelectBuilder`,
  `InsertBuilder`, `UpdateBuilder`, `DeleteBuilder`, compiled to
  `Query { sql, params }` through the numbered-placeholder SQL writer,
* the WebSocket fan-out server's connection map, send fan-out, accept path and
  inbound text-frame protocol (`crates/wasi-websocket/src/host/default_impl.rs`),
* the in-memory key-value backend (`crates/wasi-keyvalue/src/host/default_impl.rs`),
* the outbound HTTP response-header stripping (`crates/wasi-http/src/host/default_impl.rs`),
* the row-decoding layer (`crates/orm/src/entity.rs`).

External library behaviour that the repository relies on is embedded as used by
the repository: the `sea_query` statement writer is modelled with the exact
`QueryBuilder` configuration from `crates/orm/src/query.rs` (double-quote
identifier quoting, `$N` numbered placeholders, always-false extra-precedence
decider, left-associativity for And/Or/Add/Sub/Mul/Mod), whose output shape is
pinned by the repository's own test suites.  Machine integers are modelled as
`Int`/`Nat`; float payloads are carried as their bit patterns (no float
arithmetic is reasoned about).
-/

namespace Omnia

/-! ## Wire value model

`DataType` is the WASI wire value (`wasi:sql` `types.DataType`, re-exported by
`crates/wasi-sql/src/guest.rs` and used throughout `crates/orm`).  Every
variant is nullable.  Float payloads are represented by their IEEE bit
patterns (`UInt32`/`UInt64`). -/

inductive DataType where
  | boolean (v : Option Bool)
  | int32 (v : Option Int)
  | int64 (v : Option Int)
  | uint32 (v : Option Nat)
  | uint64 (v : Option Nat)
  | float (bits : Option UInt32)
  | double (bits : Option UInt64)
  | str (v : Option String)
  | binary (v : Option (List UInt8))
  | date (v : Option String)
  | time (v : Option String)
  | timestamp (v : Option String)
  deriving DecidableEq, Repr

/-- A row field (`wasi:sql` `types.Field`): a named wire value. -/
structure Field where
  name : String
  value : DataType
  deriving DecidableEq, Repr

/-- A result row (`wasi:sql` `types.Row`): ordered named wire values. -/
structure Row where
  fields : List Field
  deriving DecidableEq, Repr

/-- `sea_query::Value` as used by the ORM layer (`crates/orm`).  Only the
variants the repository constructs and converts are modelled; everything else
is the `unsupported` constructor, which `value_to_wasi_datatype` rejects.
Chrono date/time payloads are carried as their rendered strings. -/
inductive SeaValue where
  | bool (v : Option Bool)
  | tinyInt (v : Option Int)
  | smallInt (v : Option Int)
  | int (v : Option Int)
  | bigInt (v : Option Int)
  | tinyUnsigned (v : Option Nat)
  | smallUnsigned (v : Option Nat)
  | unsigned (v : Option Nat)
  | bigUnsigned (v : Option Nat)
  | float (bits : Option UInt32)
  | double (bits : Option UInt64)
  | string (v : Option String)
  | chronoDate (rendered : Option String)
  | chronoTime (rendered : Option String)
  | chronoDateTime (rendered : Option String)
  | chronoDateTimeUtc (rfc3339 : Option String)
  | char (c : Option Char)
  | bytes (v : Option (List UInt8))
  | unsupported
  deriving DecidableEq, Repr

/-- `value_to_wasi_datatype` from `crates/orm/src/entity.rs`. -/
def value_to_wasi_datatype : SeaValue → Except String DataType
  | .bool v => .ok (.boolean v)
  | .tinyInt v => .ok (.int32 v)
  | .smallInt v => .ok (.int32 v)
  | .int v => .ok (.int32 v)
  | .bigInt v => .ok (.int64 v)
  | .tinyUnsigned v => .ok (.uint32 v)
  | .smallUnsigned v => .ok (.uint32 v)
  | .unsigned v => .ok (.uint32 v)
  | .bigUnsigned v => .ok (.uint64 v)
  | .float v => .ok (.float v)
  | .double v => .ok (.double v)
  | .string v => .ok (.str v)
  | .chronoDate v => .ok (.date v)
  | .chronoTime v => .ok (.time v)
  | .chronoDateTime v => .ok (.timestamp v)
  | .chronoDateTimeUtc v => .ok (.timestamp v)
  | .char c => .ok (.str (c.map (fun ch => String.mk [ch])))
  | .bytes v => .ok (.binary v)
  | .unsupported =>
      .error "unsupported values require explicit conversion before building the query"

/-- `values_to_wasi_datatypes` from `crates/orm/src/entity.rs`: fallible map
over the collected parameter values (`collect::<Result<_>>`). -/
def values_to_wasi_datatypes : List SeaValue → Except String (List DataType)
  | [] => .ok []
  | v :: rest =>
      match value_to_wasi_datatype v with
      | .error e => .error e
      | .ok d =>
          match values_to_wasi_datatypes rest with
          | .error e => .error e
          | .ok ds => .ok (d :: ds)

/-! ## The embedded `sea_query` expression language

`SimpleExpr` covers the expression forms the ORM constructs:
`Expr::cust` raw fragments (`custom`), parameterised values (`value`),
the `NULL` keyword, value tuples (only ever built from `IN`-lists), binary
operators and unary `NOT`. -/

inductive BinOper where
  | and | or | eq | gt | lt | like | isOp | isNot | inOp
  deriving DecidableEq, Repr

inductive SimpleExpr where
  | custom (s : String)
  | value (v : SeaValue)
  | keywordNull
  | tuple (vs : List SeaValue)
  | binary (l : SimpleExpr) (op : BinOper) (r : SimpleExpr)
  | unaryNot (e : SimpleExpr)
  deriving DecidableEq, Repr

/-- `quoted_column` from `crates/orm/src/select.rs`:
format a quoted `"table"."column"` reference. -/
def quoted_column (table column : String) : String :=
  "\x22" ++ table ++ "\x22.\x22" ++ column ++ "\x22"

/-- Identifier quoting of `Alias::new` under the `QueryBuilder` of
`crates/orm/src/query.rs` (`Quote::new(b'"')`). -/
def quoteIdent (s : String) : String :=
  "\x22" ++ s ++ "\x22"

/-- SQL spelling of each binary operator. -/
def BinOper.render : BinOper → String
  | .and => "AND"
  | .or => "OR"
  | .eq => "="
  | .gt => ">"
  | .lt => "<"
  | .like => "LIKE"
  | .isOp => "IS"
  | .isNot => "IS NOT"
  | .inOp => "IN"

/-- `well_known_left_associative` from the `OperLeftAssocDecider` impl in
`crates/orm/src/query.rs` (restricted to the operators that occur here;
the source also lists Add/Sub/Mul/Mod). -/
def wellKnownLeftAssociative : BinOper → Bool
  | .and => true
  | .or => true
  | _ => false

/-- Output fragments of the SQL writer: literal text, or a numbered
placeholder carrying its bound value.  `sea_query`'s `SqlWriter` with
`placeholder() = ("$", true)` writes `$k` for the `k`-th pushed parameter. -/
inductive Frag where
  | text (s : String)
  | param (v : SeaValue)
  deriving DecidableEq, Repr

/-- Whether the left operand of a binary operator is rendered without
parentheses: `sea_query`'s writer drops them exactly when the operand is a
binary expression with the same well-known left-associative operator
(`inner_expr_well_known_greater_precedence` is constantly false in
`crates/orm/src/query.rs`, so no other parentheses are dropped). -/
def leftNoParen (l : SimpleExpr) (op : BinOper) : Bool :=
  match l with
  | .binary _ lop _ => lop == op && wellKnownLeftAssociative op
  | _ => false

/-- Render a `SimpleExpr` to writer fragments, following `sea_query`'s
`prepare_simple_expr` under the repository's `QueryBuilder`: custom fragments
verbatim, values as placeholders, binary operands parenthesised except for
left-associative chains, `IN` with an empty tuple rewritten to `1 = 2`
(pinned by the repository's `filter_in_empty_array` test), `NOT` with a
parenthesised operand. -/
def renderExpr : SimpleExpr → List Frag
  | .custom s => [.text s]
  | .value v => [.param v]
  | .keywordNull => [.text "NULL"]
  | .tuple vs =>
      [.text "("] ++ (List.intersperse (Frag.text ", ") (vs.map Frag.param)) ++ [.text ")"]
  | .binary l op r =>
      if op == .inOp && r == .tuple [] then
        [.text "(", .param (.int (some 1)), .text ") = (", .param (.int (some 2)), .text ")"]
      else
        (if leftNoParen l op then renderExpr l
         else [Frag.text "("] ++ renderExpr l ++ [Frag.text ")"])
        ++ [.text (" " ++ op.render ++ " "), .text "("] ++ renderExpr r ++ [.text ")"]
  | .unaryNot e => [.text "NOT ("] ++ renderExpr e ++ [.text ")"]

/-! ## The filter algebra (`crates/orm/src/filter.rs`) -/

inductive Filter where
  | Eq (tbl : Option String) (col : String) (val : SeaValue)
  | Gt (tbl : Option String) (col : String) (val : SeaValue)
  | Lt (tbl : Option String) (col : String) (val : SeaValue)
  | In (tbl : Option String) (col : String) (vals : List SeaValue)
  | IsNull (tbl : Option String) (col : String)
  | IsNotNull (tbl : Option String) (col : String)
  | Like (tbl : Option String) (col : String) (pattern : String)
  | ColEq (tbl1 col1 tbl2 col2 : String)
  | And (filters : List Filter)
  | Or (filters : List Filter)
  | Not (f : Filter)
  deriving Repr

namespace Filter

/-- `Filter::resolve_column`. -/
def resolve_column (tbl : Option String) (col : String) (default_table : String) : SimpleExpr :=
  .custom (quoted_column (tbl.getD default_table) col)

/-- `Filter::into_expr`: convert a filter to a `SimpleExpr` against the given
default table.  `is_in` builds a value tuple; empty `And`/`Or` become the
constant values `true`/`false`; `And`/`Or` fold left-associatively; `Not`
wraps with unary not. -/
def into_expr (default_table : String) : Filter → SimpleExpr
  | .Eq tbl col val => .binary (resolve_column tbl col default_table) .eq (.value val)
  | .Gt tbl col val => .binary (resolve_column tbl col default_table) .gt (.value val)
  | .Lt tbl col val => .binary (resolve_column tbl col default_table) .lt (.value val)
  | .In tbl col vals => .binary (resolve_column tbl col default_table) .inOp (.tuple vals)
  | .IsNull tbl col => .binary (resolve_column tbl col default_table) .isOp .keywordNull
  | .IsNotNull tbl col => .binary (resolve_column tbl col default_table) .isNot .keywordNull
  | .Like tbl col pattern =>
      .binary (resolve_column tbl col default_table) .like (.value (.string (some pattern)))
  | .ColEq tbl1 col1 tbl2 col2 =>
      .binary (.custom (quoted_column tbl1 col1)) .eq (.custom (quoted_column tbl2 col2))
  | .And filters =>
      match filters.attach.map (fun x => into_expr default_table x.1) with
      | [] => .value (.bool (some true))
      | first :: rest => rest.foldl (fun a b => .binary a .and b) first
  | .Or filters =>
      match filters.attach.map (fun x => into_expr default_table x.1) with
      | [] => .value (.bool (some false))
      | first :: rest => rest.foldl (fun a b => .binary a .or b) first
  | .Not f => .unaryNot (into_expr default_table f)
termination_by f => sizeOf f
decreasing_by
  all_goals simp_wf
  all_goals first
  | omega
  | (have h := List.sizeOf_lt_of_mem x.2; omega)

/-- `Filter::on`: set a table qualifier on this filter.  Comparison leaves get
the qualifier; everything else (including `ColEq` and the combinators) passes
through unchanged. -/
def «on» (f : Filter) (table : String) : Filter :=
  match f with
  | .Eq _ col val => .Eq (some table) col val
  | .Gt _ col val => .Gt (some table) col val
  | .Lt _ col val => .Lt (some table) col val
  | .In _ col vals => .In (some table) col vals
  | .IsNull _ col => .IsNull (some table) col
  | .IsNotNull _ col => .IsNotNull (some table) col
  | .Like _ col pattern => .Like (some table) col pattern
  | other => other

/-- `Filter::eq`. -/
def eq (col : String) (val : SeaValue) : Filter := .Eq none col val

/-- `Filter::gt`. -/
def gt (col : String) (val : SeaValue) : Filter := .Gt none col val

/-- `Filter::lt`. -/
def lt (col : String) (val : SeaValue) : Filter := .Lt none col val

/-- `Filter::in` (`r#in`). -/
def inVals (col : String) (vals : List SeaValue) : Filter := .In none col vals

/-- `Filter::is_null`. -/
def is_null (col : String) : Filter := .IsNull none col

/-- `Filter::is_not_null`. -/
def is_not_null (col : String) : Filter := .IsNotNull none col

/-- `Filter::like`. -/
def like (col : String) (pattern : String) : Filter := .Like none col pattern

/-- `Filter::col_eq`. -/
def col_eq (table1 col1 table2 col2 : String) : Filter := .ColEq table1 col1 table2 col2

end Filter

/-! ## Joins (`crates/orm/src/join.rs`) -/

inductive JoinKind where
  | inner | left | right | fullOuter
  deriving DecidableEq, Repr

/-- SQL spelling of `sea_query::JoinType` for the four kinds the ORM exposes. -/
def JoinKind.render : JoinKind → String
  | .inner => "INNER JOIN"
  | .left => "LEFT JOIN"
  | .right => "RIGHT JOIN"
  | .fullOuter => "FULL OUTER JOIN"

/-- `Join`: a SQL join without exposing `sea_query` types to guest code.
The `onFilter` field is the Rust `on` field (a Lean keyword). -/
structure Join where
  table : String
  onFilter : Filter
  kind : JoinKind

/-- `JoinSpec`: internal representation handed to the statement.
The `onExpr` field is the Rust `on` field. -/
structure JoinSpec where
  table : String
  onExpr : SimpleExpr
  kind : JoinKind
  deriving DecidableEq, Repr

/-- `Join::inner`. -/
def Join.inner (table : String) (onF : Filter) : Join := ⟨table, onF, .inner⟩

/-- `Join::left`. -/
def Join.left (table : String) (onF : Filter) : Join := ⟨table, onF, .left⟩

/-- `Join::right`. -/
def Join.right (table : String) (onF : Filter) : Join := ⟨table, onF, .right⟩

/-- `Join::full`. -/
def Join.full (table : String) (onF : Filter) : Join := ⟨table, onF, .fullOuter⟩

/-- `Join::into_join_spec`: the `on` filter is converted against the
`default_table` passed by the caller. -/
def Join.into_join_spec (j : Join) (default_table : String) : JoinSpec :=
  ⟨j.table, Filter.into_expr default_table j.onFilter, j.kind⟩

/-! ## The SELECT builder (`crates/orm/src/select.rs`) -/

inductive Order where
  | asc | desc
  deriving DecidableEq, Repr

def Order.render : Order → String
  | .asc => "ASC"
  | .desc => "DESC"

structure SelectBuilder where
  table : String
  columns : List String := []
  /-- `(alias, source_table, source_column)` triples from `column_as`. -/
  aliases : List (String × String × String) := []
  filters : List SimpleExpr := []
  limit : Option Nat := none
  offset : Option Nat := none
  order : List (String × Order) := []
  joins : List JoinSpec := []
  deriving DecidableEq, Repr

namespace SelectBuilder

/-- `SelectBuilder::new`. -/
def new (table : String) : SelectBuilder :=
  { table := table }

/-- `SelectBuilder::columns` (the Rust method shares its name with the field;
it replaces the projection columns). -/
def setColumns (b : SelectBuilder) (fields : List String) : SelectBuilder :=
  { b with columns := fields }

/-- `SelectBuilder::column_as`: splits `source` at the first dot into
`(table, column)`; the Rust code panics when there is no dot, modelled as
`none`. -/
def column_as (b : SelectBuilder) (source aliasName : String) : Option SelectBuilder :=
  match source.splitOn "." with
  | tbl :: col1 :: colRest =>
      some { b with
              aliases := b.aliases ++
                [(aliasName, tbl, String.intercalate "." (col1 :: colRest))] }
  | _ => none

/-- `SelectBuilder::filter`: pushes `filter.into_expr(&self.table)`. -/
def filter (b : SelectBuilder) (f : Filter) : SelectBuilder :=
  { b with filters := b.filters ++ [Filter.into_expr b.table f] }

/-- `SelectBuilder::limit` (named apart from the field). -/
def setLimit (b : SelectBuilder) (l : Nat) : SelectBuilder :=
  { b with limit := some l }

/-- `SelectBuilder::offset` (named apart from the field). -/
def setOffset (b : SelectBuilder) (o : Nat) : SelectBuilder :=
  { b with offset := some o }

/-- `SelectBuilder::order_by`. -/
def order_by (b : SelectBuilder) (column : String) (dir : Order) : SelectBuilder :=
  { b with order := b.order ++ [(column, dir)] }

/-- `SelectBuilder::join`: pushes `join.into_join_spec(&self.table)` — the
default table for the join's `on` filter is the builder's primary table. -/
def join (b : SelectBuilder) (j : Join) : SelectBuilder :=
  { b with joins := b.joins ++ [j.into_join_spec b.table] }

end SelectBuilder

/-! ## Statement rendering

The fragment lists produced here follow `sea_query`'s statement writers under
the repository's `QueryBuilder`; the repository's test suites pin the
separator and parenthesisation choices (for example
`WHERE ((users.active) = ($1)) AND ((users.id) > ($2))`,
`INSERT INTO items (id, name, count) VALUES ($1, $2, $3)`,
`ORDER BY users.name ASC`, `LIMIT $3 OFFSET $4`). -/

/-- Interleave fragment groups with a separator. -/
def joinFragLists (sep : List Frag) : List (List Frag) → List Frag
  | [] => []
  | [x] => x
  | x :: xs => x ++ sep ++ joinFragLists sep xs

/-- WHERE clause: `and_where` conditions joined with `AND`; a single
condition is written bare, several are each parenthesised. -/
def renderConds : List SimpleExpr → List Frag
  | [] => []
  | [c] => [.text " WHERE "] ++ renderExpr c
  | cs =>
      [.text " WHERE "] ++
        joinFragLists [.text " AND "]
          (cs.map (fun c => [Frag.text "("] ++ renderExpr c ++ [Frag.text ")"]))

/-- Projection: declared columns qualified by the primary table, then
aliases as `"t"."c" AS "alias"`; `*` when both lists are empty. -/
def projectionFrags (b : SelectBuilder) : List Frag :=
  if b.columns.isEmpty && b.aliases.isEmpty then [.text "*"]
  else
    joinFragLists [.text ", "]
      (b.columns.map (fun c => [Frag.text (quoted_column b.table c)]) ++
       b.aliases.map (fun a =>
         [Frag.text (quoted_column a.2.1 a.2.2 ++ " AS " ++ quoteIdent a.1)]))

/-- Joins, in insertion order, each as `KIND "table" ON expr`. -/
def joinsFrags (js : List JoinSpec) : List Frag :=
  js.flatMap (fun j =>
    [Frag.text (" " ++ j.kind.render ++ " " ++ quoteIdent j.table ++ " ON ")] ++
      renderExpr j.onExpr)

/-- ORDER BY: primary-table-qualified columns with direction, insertion
order. -/
def orderFrags (table : String) (ord : List (String × Order)) : List Frag :=
  if ord.isEmpty then []
  else
    [.text " ORDER BY "] ++
      joinFragLists [.text ", "]
        (ord.map (fun oc => [Frag.text (quoted_column table oc.1 ++ " " ++ oc.2.render)]))

/-- LIMIT: parameterised (`u64` becomes `Value::BigUnsigned`). -/
def limitFrags : Option Nat → List Frag
  | none => []
  | some l => [.text " LIMIT ", .param (.bigUnsigned (some l))]

/-- OFFSET: parameterised (`u64` becomes `Value::BigUnsigned`). -/
def offsetFrags : Option Nat → List Frag
  | none => []
  | some o => [.text " OFFSET ", .param (.bigUnsigned (some o))]

/-- Writer fragments of a full SELECT statement, in `sea_query`'s clause
order: projection, FROM, joins, WHERE, ORDER BY, LIMIT, OFFSET. -/
def selectFrags (b : SelectBuilder) : List Frag :=
  [.text "SELECT "] ++ projectionFrags b ++
    [.text (" FROM " ++ quoteIdent b.table)] ++
    joinsFrags b.joins ++
    renderConds b.filters ++
    orderFrags b.table b.order ++
    limitFrags b.limit ++
    offsetFrags b.offset

/-! ## INSERT / UPDATE / DELETE builders
(`crates/orm/src/insert.rs`, `update.rs`, `delete.rs`) -/

structure InsertBuilder where
  table : String
  values : List (String × SeaValue) := []
  deriving DecidableEq, Repr

namespace InsertBuilder

/-- `InsertBuilder::new`. -/
def new (table : String) : InsertBuilder :=
  { table := table }

/-- `InsertBuilder::from_entity`: all fields of an entity instance, in
declaration order. -/
def from_entity (table : String) (entityValues : List (String × SeaValue)) : InsertBuilder :=
  { table := table, values := entityValues }

/-- `InsertBuilder::set`. -/
def set (b : InsertBuilder) (column : String) (value : SeaValue) : InsertBuilder :=
  { b with values := b.values ++ [(column, value)] }

end InsertBuilder

/-- Writer fragments of an INSERT statement:
`INSERT INTO "t" ("c1", "c2") VALUES ($1, $2)`. -/
def insertFrags (b : InsertBuilder) : List Frag :=
  [.text ("INSERT INTO " ++ quoteIdent b.table ++ " (")] ++
    joinFragLists [.text ", "] (b.values.map (fun cv => [Frag.text (quoteIdent cv.1)])) ++
    [.text ") VALUES ("] ++
    joinFragLists [.text ", "] (b.values.map (fun cv => [Frag.param cv.2])) ++
    [.text ")"]

structure UpdateBuilder where
  table : String
  set_clauses : List (String × SeaValue) := []
  filters : List SimpleExpr := []
  deriving DecidableEq, Repr

namespace UpdateBuilder

/-- `UpdateBuilder::new`. -/
def new (table : String) : UpdateBuilder :=
  { table := table }

/-- `UpdateBuilder::set`. -/
def set (b : UpdateBuilder) (column : String) (value : SeaValue) : UpdateBuilder :=
  { b with set_clauses := b.set_clauses ++ [(column, value)] }

/-- `UpdateBuilder::set_if`: a no-op when the value is absent. -/
def set_if (b : UpdateBuilder) (column : String) (value : Option SeaValue) : UpdateBuilder :=
  match value with
  | some v => b.set column v
  | none => b

/-- `UpdateBuilder::filter`. -/
def filter (b : UpdateBuilder) (f : Filter) : UpdateBuilder :=
  { b with filters := b.filters ++ [Filter.into_expr b.table f] }

end UpdateBuilder

/-- Writer fragments of an UPDATE statement:
`UPDATE "t" SET "c1" = $1, "c2" = $2 WHERE ...`. -/
def updateFrags (b : UpdateBuilder) : List Frag :=
  [.text ("UPDATE " ++ quoteIdent b.table ++ " SET ")] ++
    joinFragLists [.text ", "]
      (b.set_clauses.map (fun cv => [Frag.text (quoteIdent cv.1 ++ " = "), Frag.param cv.2])) ++
    renderConds b.filters

structure DeleteBuilder where
  table : String
  filters : List SimpleExpr := []
  deriving DecidableEq, Repr

namespace DeleteBuilder

/-- `DeleteBuilder::new`. -/
def new (table : String) : DeleteBuilder :=
  { table := table }

/-- `DeleteBuilder::filter`. -/
def filter (b : DeleteBuilder) (f : Filter) : DeleteBuilder :=
  { b with filters := b.filters ++ [Filter.into_expr b.table f] }

end DeleteBuilder

/-- Writer fragments of a DELETE statement: `DELETE FROM "t" WHERE ...`;
with no filters it deletes all rows. -/
def deleteFrags (b : DeleteBuilder) : List Frag :=
  [.text ("DELETE FROM " ++ quoteIdent b.table)] ++ renderConds b.filters

/-! ## The numbered-placeholder writer

`sea_query`'s `SqlWriter` under `placeholder() = ("$", true)`
(`crates/orm/src/query.rs`): the `k`-th pushed parameter writes `$k` into the
SQL text and appends its value to the collected parameter list. -/

/-- Decimal digit character (only called with `d < 10`). -/
def digitChar : Nat → Char
  | 0 => '0'
  | 1 => '1'
  | 2 => '2'
  | 3 => '3'
  | 4 => '4'
  | 5 => '5'
  | 6 => '6'
  | 7 => '7'
  | 8 => '8'
  | _ => '9'

/-- Decimal digit rendering, structurally recursive on a fuel bound (the
fuel never runs out when it exceeds the number). -/
def natDigitsAux (fuel : Nat) (n : Nat) : List Char :=
  match fuel with
  | 0 => []
  | fuel + 1 =>
      if n < 10 then [digitChar n]
      else natDigitsAux fuel (n / 10) ++ [digitChar (n % 10)]

/-- Decimal digit string of a natural number, most significant first. -/
def natDigits (n : Nat) : List Char := natDigitsAux (n + 1) n

/-- Flatten writer fragments to the SQL character stream, numbering
placeholders from `k + 1`. -/
def flattenFrom (k : Nat) : List Frag → List Char
  | [] => []
  | .text s :: rest => s.data ++ flattenFrom k rest
  | .param _ :: rest => ('$' :: natDigits (k + 1)) ++ flattenFrom (k + 1) rest

/-- The parameter values collected by the writer, in push order. -/
def fragParams : List Frag → List SeaValue
  | [] => []
  | .text _ :: rest => fragParams rest
  | .param v :: rest => v :: fragParams rest

/-- A compiled SQL query ready for execution (`Query` in
`crates/orm/src/query.rs`). -/
structure Query where
  sql : String
  params : List DataType
  deriving DecidableEq, Repr

/-- `statement.build(QueryBuilder)` followed by `values_to_wasi_datatypes`:
flatten the fragments numbering placeholders from `$1` and convert the
collected values to wire values. -/
def buildFrags (fs : List Frag) : Except String Query :=
  match values_to_wasi_datatypes (fragParams fs) with
  | .error e => .error e
  | .ok params => .ok ⟨String.mk (flattenFrom 0 fs), params⟩

/-- `SelectBuilder::build`. -/
def SelectBuilder.build (b : SelectBuilder) : Except String Query :=
  buildFrags (selectFrags b)

/-- `InsertBuilder::build`. -/
def InsertBuilder.build (b : InsertBuilder) : Except String Query :=
  buildFrags (insertFrags b)

/-- `UpdateBuilder::build`. -/
def UpdateBuilder.build (b : UpdateBuilder) : Except String Query :=
  buildFrags (updateFrags b)

/-- `DeleteBuilder::build`. -/
def DeleteBuilder.build (b : DeleteBuilder) : Except String Query :=
  buildFrags (deleteFrags b)

/-- A `sea_query` statement as the escape-hatch `build_query` receives it,
restricted to the statement forms the repository constructs. -/
inductive Statement where
  | select (b : SelectBuilder)
  | insert (b : InsertBuilder)
  | update (b : UpdateBuilder)
  | delete (b : DeleteBuilder)

/-- Writer fragments of a statement. -/
def statementFrags : Statement → List Frag
  | .select b => selectFrags b
  | .insert b => insertFrags b
  | .update b => updateFrags b
  | .delete b => deleteFrags b

/-- `build_query` from `crates/orm/src/query.rs`: build any statement with
the numbered-placeholder `QueryBuilder` and convert the parameters. -/
def build_query (st : Statement) : Except String Query :=
  buildFrags (statementFrags st)

/-! ## Counting placeholders in SQL text

The spec's `count_placeholders`: a placeholder is a `$` immediately followed
by at least one decimal digit; its index is the decimal number formed by the
maximal digit run. -/

def isDigitChar (c : Char) : Bool :=
  48 ≤ c.toNat && c.toNat ≤ 57

/-- Split a maximal leading digit run off a character list. -/
def takeDigits : List Char → List Char × List Char
  | [] => ([], [])
  | c :: rest =>
      if isDigitChar c then
        let p := takeDigits rest
        (c :: p.1, p.2)
      else ([], c :: rest)

def digitToNat (c : Char) : Nat := c.toNat - 48

def digitsToNat (ds : List Char) : Nat :=
  ds.foldl (fun a c => 10 * a + digitToNat c) 0

/-- Placeholder scanner, structurally recursive on a fuel bound (the fuel
never runs out when it is at least the stream length). -/
def scanAux (fuel : Nat) (l : List Char) : List Nat :=
  match fuel with
  | 0 => []
  | fuel + 1 =>
      match l with
      | [] => []
      | c :: rest =>
          if c = '$' then
            if (takeDigits rest).1.isEmpty then scanAux fuel rest
            else digitsToNat (takeDigits rest).1 :: scanAux fuel (takeDigits rest).2
          else scanAux fuel rest

/-- The placeholder indices occurring in a character stream, left to right. -/
def scanPlaceholders (l : List Char) : List Nat := scanAux l.length l

/-- The placeholder indices of a SQL string, in encounter order. -/
def placeholderIndices (s : String) : List Nat :=
  scanPlaceholders s.data

/-- `count_placeholders` of a SQL string. -/
def countPlaceholders (s : String) : Nat :=
  (placeholderIndices s).length

/-! ## Well-formedness of writer fragments

Placeholder counting on the flattened string is meaningful because (a) no
literal fragment contains a `$`, and (b) the first character following a
placeholder is never a digit.  Both are established below for every fragment
list the builders emit, assuming only that the builder's identifier strings
are `$`-free. -/

def strNoDollar (s : String) : Bool :=
  !s.data.contains '$'

def fragNoDollar : Frag → Bool
  | .text s => strNoDollar s
  | .param _ => true

def fragsNoDollar (fs : List Frag) : Bool :=
  fs.all fragNoDollar

/-- First character of the flattened fragment stream (a placeholder starts
with `$`). -/
def fragsHeadChar : List Frag → Option Char
  | [] => none
  | .text s :: rest =>
      match s.data with
      | [] => fragsHeadChar rest
      | c :: _ => some c
  | .param _ :: _ => some '$'

/-- The flattened stream ahead does not start with a digit. -/
def safeHead (fs : List Frag) : Bool :=
  match fragsHeadChar fs with
  | none => true
  | some c => !isDigitChar c

/-- Every placeholder is followed by a digit-free boundary. -/
def paramsSafe : List Frag → Bool
  | [] => true
  | .text _ :: rest => paramsSafe rest
  | .param _ :: rest => safeHead rest && paramsSafe rest

def goodFrags (fs : List Frag) : Bool :=
  fragsNoDollar fs && paramsSafe fs

/-- A fragment list containing no placeholders. -/
def noParams (fs : List Frag) : Bool :=
  fs.all (fun f => match f with | .text _ => true | .param _ => false)

/-- All raw custom fragments inside an expression are `$`-free. -/
def exprNoDollar : SimpleExpr → Bool
  | .custom s => strNoDollar s
  | .value _ => true
  | .keywordNull => true
  | .tuple _ => true
  | .binary l _ r => exprNoDollar l && exprNoDollar r
  | .unaryNot e => exprNoDollar e

/-- All identifier strings of a SELECT builder are `$`-free. -/
def SelectBuilder.identsNoDollar (b : SelectBuilder) : Bool :=
  strNoDollar b.table && b.columns.all strNoDollar &&
    b.aliases.all (fun a => strNoDollar a.1 && strNoDollar a.2.1 && strNoDollar a.2.2) &&
    b.filters.all exprNoDollar &&
    b.order.all (fun oc => strNoDollar oc.1) &&
    b.joins.all (fun j => strNoDollar j.table && exprNoDollar j.onExpr)

/-- All identifier strings of an INSERT builder are `$`-free. -/
def InsertBuilder.identsNoDollar (b : InsertBuilder) : Bool :=
  strNoDollar b.table && b.values.all (fun cv => strNoDollar cv.1)

/-- All identifier strings of an UPDATE builder are `$`-free. -/
def UpdateBuilder.identsNoDollar (b : UpdateBuilder) : Bool :=
  strNoDollar b.table && b.set_clauses.all (fun cv => strNoDollar cv.1) &&
    b.filters.all exprNoDollar

/-- All identifier strings of a DELETE builder are `$`-free. -/
def DeleteBuilder.identsNoDollar (b : DeleteBuilder) : Bool :=
  strNoDollar b.table && b.filters.all exprNoDollar

/-- All identifier strings of a statement are `$`-free. -/
def Statement.identsNoDollar : Statement → Bool
  | .select b => b.identsNoDollar
  | .insert b => b.identsNoDollar
  | .update b => b.identsNoDollar
  | .delete b => b.identsNoDollar

/-! ## Spec-side descriptions used to state claims about the filter algebra -/

/-- Wrap a fragment group in parentheses. -/
def parenWrap (fs : List Frag) : List Frag :=
  [.text "("] ++ fs ++ [.text ")"]

def isAndBinary : SimpleExpr → Bool
  | .binary _ .and _ => true
  | _ => false

def isOrBinary : SimpleExpr → Bool
  | .binary _ .or _ => true
  | _ => false

/-- The spec's description of how a non-normalised `AND` chain renders:
the empty chain is the constant `true` (a bound parameter under this writer),
a singleton renders bare, and a longer chain renders its members in list
order joined by `AND`, each member parenthesised except a leading member
that is itself an `AND` chain (left associativity). -/
def andChainFrags (es : List SimpleExpr) : List Frag :=
  match es with
  | [] => [.param (.bool (some true))]
  | [e] => renderExpr e
  | e :: rest =>
      (if isAndBinary e then renderExpr e else parenWrap (renderExpr e)) ++
        rest.flatMap (fun y => [Frag.text " AND "] ++ parenWrap (renderExpr y))

/-- The spec's description of how an `OR` chain renders (empty chain:
constant `false`). -/
def orChainFrags (es : List SimpleExpr) : List Frag :=
  match es with
  | [] => [.param (.bool (some false))]
  | [e] => renderExpr e
  | e :: rest =>
      (if isOrBinary e then renderExpr e else parenWrap (renderExpr e)) ++
        rest.flatMap (fun y => [Frag.text " OR "] ++ parenWrap (renderExpr y))

/-- Comparison leaves in the sense of `Filter::on`: the constructors that
carry an optional table qualifier. -/
def Filter.isCompLeaf : Filter → Bool
  | .Eq _ _ _ => true
  | .Gt _ _ _ => true
  | .Lt _ _ _ => true
  | .In _ _ _ => true
  | .IsNull _ _ => true
  | .IsNotNull _ _ => true
  | .Like _ _ _ => true
  | _ => false

/-- The table qualifier of a comparison leaf. -/
def Filter.leafQual : Filter → Option String
  | .Eq t _ _ => t
  | .Gt t _ _ => t
  | .Lt t _ _ => t
  | .In t _ _ => t
  | .IsNull t _ => t
  | .IsNotNull t _ => t
  | .Like t _ _ => t
  | _ => none

/-- The column of a comparison leaf. -/
def Filter.leafCol : Filter → Option String
  | .Eq _ c _ => some c
  | .Gt _ c _ => some c
  | .Lt _ c _ => some c
  | .In _ c _ => some c
  | .IsNull _ c => some c
  | .IsNotNull _ c => some c
  | .Like _ c _ => some c
  | _ => none

/-- Spec-side relabelling: replace one column-reference fragment by another
(used to state that two renderings differ only in the table qualifier of a
column reference). -/
def requalify (fromRef toRef : String) : Frag → Frag :=
  fun fr => if fr = .text fromRef then .text toRef else fr

/-! ## WebSocket fan-out server
(`crates/wasi-websocket/src/host/default_impl.rs`) -/

/-- State of a peer's bounded outbound channel endpoint
(`futures_channel::mpsc::Sender<Message>`, capacity 256). -/
structure Channel where
  capacity : Nat
  queued : Nat
  closed : Bool
  deriving DecidableEq, Repr

inductive TrySendError where
  | full
  | disconnected
  deriving DecidableEq, Repr

/-- `Sender::try_send`: non-blocking; fails when the receiver is gone or the
bounded buffer is full, otherwise enqueues one message. -/
def Channel.trySend (c : Channel) : Except TrySendError Channel :=
  if c.closed then .error .disconnected
  else if c.capacity ≤ c.queued then .error .full
  else .ok { c with queued := c.queued + 1 }

/-- Did a `try_send` on this channel fail? -/
def Channel.trySendFails (c : Channel) : Bool :=
  match c.trySend with
  | .ok _ => false
  | .error _ => true

/-- `Connection`: a peer's subscription groups (a `HashSet`, modelled as a
list) and outbound channel sender. -/
structure Connection where
  groups : List String
  sender : Channel
  deriving DecidableEq, Repr

/-- Peer socket addresses, opaque. -/
abbrev Addr := Nat

/-- `ConnectionMap`: peer address to connection (`HashMap`, modelled as an
association list without duplicate keys). -/
abbrev ConnectionMap := List (Addr × Connection)

def MAX_CONNECTIONS : Nat := 1024

/-- `InMemEvent`: payload bytes plus optional group label. -/
structure Event where
  data : List UInt8
  group : Option String
  deriving DecidableEq, Repr

namespace WebSocketDefault

/-- Whether `send`'s group filter targets a connection: absent groups target
everyone, otherwise the peer's group set must intersect the requested set
(`c.groups.iter().any(|g| groups.contains(g))`). -/
def targeted (to_groups : Option (List String)) (c : Connection) : Bool :=
  match to_groups with
  | none => true
  | some gs => c.groups.any (fun g => gs.contains g)

/-- `Socket::send for WebSocketDefault`: snapshot the senders of the
targeted connections under the lock, `try_send` the payload to each, count
failures, and surface an aggregated error exactly when some enqueue failed.
The connection map's membership is not touched; each successful enqueue
bumps that peer's queue. -/
def send (conns : ConnectionMap) (_event : Event) (groups : Option (List String)) :
    Except String Unit × ConnectionMap :=
  let clients := (conns.filter (fun pc => targeted groups pc.2)).map (fun pc => pc.2.sender)
  let failures := (clients.filter Channel.trySendFails).length
  let conns' := conns.map (fun pc =>
    if targeted groups pc.2 then
      match pc.2.sender.trySend with
      | .ok ch => (pc.1, { pc.2 with sender := ch })
      | .error _ => pc
    else pc)
  if 0 < failures then
    (.error "failed to enqueue websocket payload", conns')
  else (.ok (), conns')

/-- `HashMap::insert`: replace the value under an existing key, or add the
binding. -/
def insertConn (conns : ConnectionMap) (a : Addr) (c : Connection) : ConnectionMap :=
  if conns.any (fun pc => pc.1 == a) then
    conns.map (fun pc => if pc.1 == a then (a, c) else pc)
  else conns ++ [(a, c)]

/-- `HashMap::remove` (the cleanup at the end of `handle_socket`). -/
def removeConn (conns : ConnectionMap) (a : Addr) : ConnectionMap :=
  conns.filter (fun pc => !(pc.1 == a))

/-- The subscribe branch of `handle_socket`: replace the peer's group set if
the peer is still in the map (`get_mut`). -/
def setGroups (conns : ConnectionMap) (a : Addr) (gs : List String) : ConnectionMap :=
  conns.map (fun pc => if pc.1 == a then (pc.1, { pc.2 with groups := gs }) else pc)

/-- `WebSocketDefault::save_socket`: reject when the map already holds
`MAX_CONNECTIONS` connections, otherwise insert the peer with an empty group
set and the fresh sender. -/
def save_socket (conns : ConnectionMap) (peer_addr : Addr) (tx : Channel) :
    Except String ConnectionMap :=
  if MAX_CONNECTIONS ≤ conns.length then .error "max connections reached"
  else .ok (insertConn conns peer_addr { groups := [], sender := tx })

/-- Observable steps of the accept path for one incoming TCP connection. -/
inductive AcceptStep where
  | handshake (ok : Bool)
  | saved
  | rejected
  deriving DecidableEq, Repr

/-- The accept path from `WebSocketDefault::listen`: the spawned task first
runs the WebSocket handshake (`accept_async`); only on success does
`handle_socket` call `save_socket`, which can reject the connection. -/
def acceptConnection (conns : ConnectionMap) (peer : Addr) (handshakeOk : Bool)
    (tx : Channel) : List AcceptStep × ConnectionMap :=
  if handshakeOk then
    match save_socket conns peer tx with
    | .ok m => ([.handshake true, .saved], m)
    | .error _ => ([.handshake true, .rejected], conns)
  else ([.handshake false], conns)

/-- The connection-map states reachable by the default WebSocket server:
starting empty, via accepts, per-peer disconnect cleanup, subscribe updates
and guest sends. -/
inductive Reachable : ConnectionMap → Prop
  | init : Reachable []
  | accept (m : ConnectionMap) (a : Addr) (hs : Bool) (tx : Channel)
      (h : Reachable m) : Reachable (acceptConnection m a hs tx).2
  | disconnect (m : ConnectionMap) (a : Addr) (h : Reachable m) :
      Reachable (removeConn m a)
  | subscribe (m : ConnectionMap) (a : Addr) (gs : List String) (h : Reachable m) :
      Reachable (setGroups m a gs)
  | sendStep (m : ConnectionMap) (ev : Event) (gs : Option (List String))
      (h : Reachable m) : Reachable (send m ev gs).2

end WebSocketDefault

/-- A connection map holding exactly `MAX_CONNECTIONS` distinct peers, each
with a healthy outbound channel (used to exercise the full-map accept
path). -/
def fullConnMap : ConnectionMap :=
  (List.range MAX_CONNECTIONS).map
    (fun i => (i, { groups := [], sender := { capacity := 256, queued := 0, closed := false } }))

/-- JSON values as `serde_json::Value` exposes them to `handle_socket`
(numbers are irrelevant to the protocol and carried as integers). -/
inductive Json where
  | null
  | bool (b : Bool)
  | num (n : Int)
  | str (s : String)
  | arr (xs : List Json)
  | obj (fields : List (String × Json))

/-- `Value::get(key)`: member lookup on objects, `None` elsewhere. -/
def Json.get (j : Json) (k : String) : Option Json :=
  match j with
  | .obj fields => (fields.find? (fun f => f.1 == k)).map (fun f => f.2)
  | _ => none

/-- `Value::as_str`. -/
def Json.asStr : Json → Option String
  | .str s => some s
  | _ => none

/-- `Value::as_array`. -/
def Json.asArr : Json → Option (List Json)
  | .arr xs => some xs
  | _ => none

namespace WebSocketDefault

/-- The `Message::Text` branch of `WebSocketDefault::handle_socket`.
JSON parsing (`serde_json::from_str`) is external; its result is an input
(`none` models a parse failure).  A parse with `"type": "subscribe"` and a
`"groups"` array replaces the peer's group set (keeping only string
entries) and publishes nothing; any other text publishes one event whose
data is the UTF-8 bytes of the text, with no group. -/
def handleTextFrame (conns : ConnectionMap) (peer : Addr) (parseResult : Option Json)
    (text : String) : ConnectionMap × List Event :=
  match parseResult with
  | some json =>
      if (json.get "type").bind Json.asStr == some "subscribe" then
        match (json.get "groups").bind Json.asArr with
        | some groups =>
            (setGroups conns peer (groups.filterMap Json.asStr), [])
        | none => (conns, [{ data := text.toUTF8.toList, group := none }])
      else (conns, [{ data := text.toUTF8.toList, group := none }])
  | none => (conns, [{ data := text.toUTF8.toList, group := none }])

end WebSocketDefault

/-! ## In-memory key-value backend
(`crates/wasi-keyvalue/src/host/default_impl.rs`) -/

/-- The `DashMap<String, HashMap<String, Vec<u8>>>` store, modelled as
nested association lists without duplicate keys. -/
abbrev KvStore := List (String × List (String × List UInt8))

namespace InMemBucket

/-- Lookup a bucket's map. -/
def bucketOf (store : KvStore) (bucket : String) : Option (List (String × List UInt8)) :=
  (store.find? (fun b => b.1 == bucket)).map (fun b => b.2)

/-- `HashMap::insert` inside a bucket. -/
def entryInsert (m : List (String × List UInt8)) (key : String) (value : List UInt8) :
    List (String × List UInt8) :=
  if m.any (fun kv => kv.1 == key) then
    m.map (fun kv => if kv.1 == key then (key, value) else kv)
  else m ++ [(key, value)]

/-- `InMemBucket::get`: value under the key, if the bucket and key exist. -/
def get (store : KvStore) (bucket key : String) : Option (List UInt8) :=
  (bucketOf store bucket).bind (fun m =>
    (m.find? (fun kv => kv.1 == key)).map (fun kv => kv.2))

/-- `InMemBucket::set`: `store.entry(name).or_default().insert(key, value)` —
create the bucket if missing, then insert. -/
def set (store : KvStore) (bucket key : String) (value : List UInt8) : KvStore :=
  if store.any (fun b => b.1 == bucket) then
    store.map (fun b => if b.1 == bucket then (b.1, entryInsert b.2 key value) else b)
  else store ++ [(bucket, entryInsert [] key value)]

/-- Modelled from the spec: the host-side state-store operation
`set(bucket, key, value, ttl_secs) -> optional bytes`.  The WIT host wiring
that implements this operation over the `Bucket` trait is not under `src/`
(only the default backend is); per the spec it returns the previous value if
any, and TTL is a hint the default backend ignores but must not reject
(`InMemBucket::set` takes no TTL at all). -/
def hostSet (store : KvStore) (bucket key : String) (value : List UInt8) :
    Option Nat → Option (List UInt8) × KvStore :=
  fun _ttl_secs => (get store bucket key, set store bucket key value)

end InMemBucket

/-! ## Outbound HTTP response-header stripping
(`crates/wasi-http/src/host/default_impl.rs`) -/

/-- `FORBIDDEN_HEADERS`: the nine hop-by-hop headers disallowed by
`wasmtime-wasi-http`, in canonical lower-case `HeaderName` form. -/
def FORBIDDEN_HEADERS : List String :=
  ["connection", "host", "proxy-authenticate", "proxy-authorization",
   "transfer-encoding", "upgrade", "keep-alive", "proxy-connection",
   "http2-settings"]

/-- A header map, names in canonical lower-case (the `http::HeaderName`
invariant); repeated names allowed. -/
abbrev Headers := List (String × String)

/-- `HeaderMap::remove`: drop every value stored under the name. -/
def removeHeader (hs : Headers) (name : String) : Headers :=
  hs.filter (fun h => !(h.1 == name))

/-- The response post-processing at the end of `send_request`:
`for header in &FORBIDDEN_HEADERS { headers.remove(header) }`. -/
def stripForbiddenResponseHeaders (hs : Headers) : Headers :=
  FORBIDDEN_HEADERS.foldl removeHeader hs

/-! ## Row decoding (`crates/orm/src/entity.rs`) -/

/-- `is_null`: a wire value whose payload is the per-variant null. -/
def is_null : DataType → Bool
  | .boolean none => true
  | .int32 none => true
  | .int64 none => true
  | .uint32 none => true
  | .uint64 none => true
  | .float none => true
  | .double none => true
  | .str none => true
  | .binary none => true
  | .date none => true
  | .time none => true
  | .timestamp none => true
  | _ => false

/-- `row_field`: first field with the given name, or a missing-column
error. -/
def row_field (row : Row) (name : String) : Except String DataType :=
  match row.fields.find? (fun field => field.name == name) with
  | some field => .ok field.value
  | none => .error ("missing column '" ++ name ++ "'")

/-- `as_i32`. -/
def as_i32 : DataType → Except String Int
  | .int32 (some v) => .ok v
  | _ => .error "expected int32 data type"

/-- `FetchValue::fetch` for `i32` (the `impl_fetch_value!` pattern:
`$convert(row_field(row, col)?)`). -/
def fetchI32 (row : Row) (col : String) : Except String Int :=
  (row_field row col).bind as_i32

/-- `FetchValue::fetch` for `Option<T>`, generic in the `T` fetch:
a present, non-null column delegates to `T` (propagating its error);
a null column or a missing column yields `Ok(None)`. -/
def fetchOptional {α : Type} (fetchT : Row → String → Except String α)
    (row : Row) (col : String) : Except String (Option α) :=
  match row_field row col with
  | .ok field =>
      if !(is_null field) then (fetchT row col).map some
      else .ok none
  | .error _ => .ok none

/-! ### Decimal rendering round-trip -/

theorem isDigitChar_digitChar (d : Nat) : isDigitChar (digitChar d) = true := by
  unfold digitChar
  split <;> decide

theorem digitToNat_digitChar (d : Nat) (h : d < 10) : digitToNat (digitChar d) = d := by
  interval_cases d <;> decide

theorem natDigitsAux_ne_nil (fuel n : Nat) (h : n < fuel) : natDigitsAux fuel n ≠ [] := by
  cases fuel with
  | zero => omega
  | succ fuel =>
      rw [natDigitsAux]
      split <;> simp

theorem natDigits_ne_nil (n : Nat) : natDigits n ≠ [] :=
  natDigitsAux_ne_nil (n + 1) n (Nat.lt_succ_self n)

theorem natDigitsAux_all_digits (fuel : Nat) :
    ∀ n, n < fuel → ∀ c ∈ natDigitsAux fuel n, isDigitChar c = true := by
  induction fuel with
  | zero => omega
  | succ fuel ih =>
      intro n hn c hc
      rw [natDigitsAux] at hc
      split at hc
      · rw [List.mem_singleton] at hc
        subst hc
        exact isDigitChar_digitChar n
      · rcases List.mem_append.1 hc with h | h
        · exact ih (n / 10) (by omega) c h
        · rw [List.mem_singleton] at h
          subst h
          exact isDigitChar_digitChar _

theorem natDigits_all_digits (n : Nat) : ∀ c ∈ natDigits n, isDigitChar c = true :=
  natDigitsAux_all_digits (n + 1) n (Nat.lt_succ_self n)

theorem digitsToNat_concat (l : List Char) (c : Char) :
    digitsToNat (l ++ [c]) = 10 * digitsToNat l + digitToNat c := by
  simp [digitsToNat, List.foldl_append]

theorem digitsToNat_natDigitsAux (fuel : Nat) :
    ∀ n, n < fuel → digitsToNat (natDigitsAux fuel n) = n := by
  induction fuel with
  | zero => omega
  | succ fuel ih =>
      intro n hn
      rw [natDigitsAux]
      split
      · next h =>
          simp [digitsToNat, digitToNat_digitChar n h]
      · next h =>
          rw [digitsToNat_concat, ih (n / 10) (by omega),
            digitToNat_digitChar (n % 10) (by omega)]
          omega

theorem digitsToNat_natDigits (n : Nat) : digitsToNat (natDigits n) = n :=
  digitsToNat_natDigitsAux (n + 1) n (Nat.lt_succ_self n)

/-! ### `takeDigits` and `scanPlaceholders` -/

theorem takeDigits_snd_length_le (l : List Char) : (takeDigits l).2.length ≤ l.length := by
  induction l with
  | nil => simp [takeDigits]
  | cons c rest ih =>
      simp only [takeDigits]
      split
      · simpa using Nat.le_succ_of_le ih
      · simp

theorem takeDigits_no_lead (l : List Char)
    (h : ∀ c, l.head? = some c → isDigitChar c = false) : takeDigits l = ([], l) := by
  cases l with
  | nil => rfl
  | cons c rest =>
      have := h c rfl
      simp [takeDigits, this]

theorem takeDigits_digits_append (ds l : List Char)
    (hds : ∀ c ∈ ds, isDigitChar c = true)
    (hl : ∀ c, l.head? = some c → isDigitChar c = false) :
    takeDigits (ds ++ l) = (ds, l) := by
  induction ds with
  | nil => simpa using takeDigits_no_lead l hl
  | cons d ds ih =>
      have hd : isDigitChar d = true := hds d (by simp)
      have ihr := ih (fun c hc => hds c (by simp [hc]))
      simp [takeDigits, hd, ihr]

theorem scanAux_irrel (fuel1 : Nat) :
    ∀ fuel2 l, l.length ≤ fuel1 → l.length ≤ fuel2 → scanAux fuel1 l = scanAux fuel2 l := by
  induction fuel1 with
  | zero =>
      intro fuel2 l h1 _
      have : l = [] := by
        cases l with
        | nil => rfl
        | cons c rest => simp at h1
      subst this
      cases fuel2 <;> rfl
  | succ fuel ih =>
      intro fuel2 l h1 h2
      cases l with
      | nil => cases fuel2 <;> rfl
      | cons c rest =>
          cases fuel2 with
          | zero => simp at h2
          | succ fuel2 =>
              rw [List.length_cons] at h1 h2
              rw [scanAux, scanAux]
              by_cases hc : c = '$'
              · rw [if_pos hc, if_pos hc]
                by_cases he : (takeDigits rest).1.isEmpty
                · rw [if_pos he, if_pos he]
                  exact ih fuel2 rest (by omega) (by omega)
                · rw [if_neg he, if_neg he]
                  have hlen := takeDigits_snd_length_le rest
                  rw [ih fuel2 (takeDigits rest).2 (by omega) (by omega)]
              · rw [if_neg hc, if_neg hc]
                exact ih fuel2 rest (by omega) (by omega)

theorem scan_cons_ne (c : Char) (rest : List Char) (h : c ≠ '$') :
    scanPlaceholders (c :: rest) = scanPlaceholders rest := by
  show scanAux (c :: rest).length (c :: rest) = scanAux rest.length rest
  rw [List.length_cons, scanAux, if_neg h]

theorem scan_append_noDollar (l1 l2 : List Char) (h : '$' ∉ l1) :
    scanPlaceholders (l1 ++ l2) = scanPlaceholders l2 := by
  induction l1 with
  | nil => simp
  | cons c rest ih =>
      have hc : c ≠ '$' := by
        intro hEq
        exact h (hEq ▸ List.mem_cons_self c rest)
      rw [List.cons_append, scan_cons_ne c _ hc]
      exact ih (fun hm => h (List.mem_cons_of_mem c hm))

/-! ### Fragment goodness: append and component lemmas -/

theorem fragsNoDollar_append (a b : List Frag) :
    fragsNoDollar (a ++ b) = (fragsNoDollar a && fragsNoDollar b) := by
  simp [fragsNoDollar, List.all_append]

theorem fragsHeadChar_append (a b : List Frag) :
    fragsHeadChar (a ++ b) = (fragsHeadChar a).or (fragsHeadChar b) := by
  induction a with
  | nil => simp [fragsHeadChar, Option.or]
  | cons f r ih =>
      cases f with
      | text s =>
          rw [List.cons_append, fragsHeadChar, fragsHeadChar]
          cases hd : s.data with
          | nil => simpa [hd] using ih
          | cons c cs => simp [hd, Option.or]
      | param v => simp [fragsHeadChar, Option.or]

theorem safeHead_append {a b : List Frag} (ha : safeHead a = true)
    (hb : safeHead b = true) : safeHead (a ++ b) = true := by
  unfold safeHead at *
  rw [fragsHeadChar_append]
  cases h : fragsHeadChar a with
  | none => simpa [Option.or] using hb
  | some c =>
      rw [h] at ha
      simpa [Option.or] using ha

theorem paramsSafe_append {a b : List Frag} (ha : paramsSafe a = true)
    (hb : paramsSafe b = true) (hs : safeHead b = true) :
    paramsSafe (a ++ b) = true := by
  induction a with
  | nil => simpa
  | cons f r ih =>
      cases f with
      | text s =>
          rw [paramsSafe] at ha
          rw [List.cons_append, paramsSafe]
          exact ih ha
      | param v =>
          rw [paramsSafe, Bool.and_eq_true] at ha
          rw [List.cons_append, paramsSafe, Bool.and_eq_true]
          exact ⟨safeHead_append ha.1 hs, ih ha.2⟩

theorem paramsSafe_of_noParams {a : List Frag} (h : noParams a = true) :
    paramsSafe a = true := by
  induction a with
  | nil => rfl
  | cons f r ih =>
      cases f with
      | text s =>
          rw [noParams, List.all_cons, Bool.and_eq_true] at h
          rw [paramsSafe]
          exact ih h.2
      | param v =>
          rw [noParams, List.all_cons] at h
          simp at h

theorem paramsSafe_append_noParams {a b : List Frag} (ha : noParams a = true)
    (hb : paramsSafe b = true) : paramsSafe (a ++ b) = true := by
  induction a with
  | nil => simpa
  | cons f r ih =>
      cases f with
      | text s =>
          rw [noParams, List.all_cons, Bool.and_eq_true] at ha
          rw [List.cons_append, paramsSafe]
          exact ih ha.2
      | param v =>
          rw [noParams, List.all_cons] at ha
          simp at ha

theorem safeHead_cons_of_head {s : String} {c : Char} {cs : List Char}
    (hdata : s.data = c :: cs) (hc : isDigitChar c = false) (rest : List Frag) :
    safeHead (Frag.text s :: rest) = true := by
  unfold safeHead fragsHeadChar
  rw [hdata]
  simpa using hc

theorem safeHead_append_left {a b : List Frag} (ha : safeHead a = true)
    (hs : (fragsHeadChar a).isSome) : safeHead (a ++ b) = true := by
  unfold safeHead at *
  rw [fragsHeadChar_append]
  cases h : fragsHeadChar a with
  | none => rw [h] at hs; simp at hs
  | some c =>
      rw [h] at ha
      simpa [Option.or] using ha

theorem safeHead_rparen (rest : List Frag) : safeHead (Frag.text ")" :: rest) = true := by
  exact safeHead_cons_of_head rfl (by decide) rest

theorem safeHead_sep (op : BinOper) (rest : List Frag) :
    safeHead (Frag.text (" " ++ op.render ++ " ") :: rest) = true := by
  have hdata : (" " ++ op.render ++ " ").data = ' ' :: (op.render ++ " ").data := by
    simp [String.data_append]
  exact safeHead_cons_of_head hdata (by decide) rest

theorem binOpSep_noDollar (op : BinOper) :
    strNoDollar (" " ++ BinOper.render op ++ " ") = true := by
  cases op <;> decide

theorem interParen_paramsSafe (vs : List SeaValue) :
    paramsSafe
      (List.intersperse (Frag.text ", ") (vs.map Frag.param) ++ [Frag.text ")"]) = true := by
  induction vs with
  | nil => rfl
  | cons v vs ih =>
      cases vs with
      | nil =>
          show paramsSafe (Frag.param v :: [Frag.text ")"]) = true
          rw [paramsSafe, Bool.and_eq_true]
          exact ⟨safeHead_rparen [], rfl⟩
      | cons v2 rest =>
          show paramsSafe (Frag.param v :: Frag.text ", " ::
            (List.intersperse (Frag.text ", ") ((v2 :: rest).map Frag.param) ++
              [Frag.text ")"])) = true
          rw [paramsSafe, Bool.and_eq_true]
          refine ⟨safeHead_cons_of_head rfl (by decide) _, ?_⟩
          rw [paramsSafe]
          exact ih

theorem interParen_noDollar (vs : List SeaValue) :
    fragsNoDollar
      (List.intersperse (Frag.text ", ") (vs.map Frag.param) ++ [Frag.text ")"]) = true := by
  induction vs with
  | nil => rfl
  | cons v vs ih =>
      cases vs with
      | nil => rfl
      | cons v2 rest =>
          show fragsNoDollar (Frag.param v :: Frag.text ", " ::
            (List.intersperse (Frag.text ", ") ((v2 :: rest).map Frag.param) ++
              [Frag.text ")"])) = true
          rw [fragsNoDollar, List.all_cons, List.all_cons, Bool.and_eq_true, Bool.and_eq_true]
          refine ⟨rfl, by decide, ?_⟩
          rw [fragsNoDollar] at ih
          exact ih

theorem renderExpr_paramsSafe (e : SimpleExpr) : paramsSafe (renderExpr e) = true := by
  induction e with
  | custom s => rfl
  | value v => rfl
  | keywordNull => rfl
  | tuple vs =>
      rw [renderExpr]
      have := interParen_paramsSafe vs
      rw [List.append_assoc, List.singleton_append, paramsSafe]
      exact this
  | binary l op r ihl ihr =>
      rw [renderExpr]
      split
      · decide
      · simp only [List.append_assoc]
        have tail : paramsSafe
            ([Frag.text (" " ++ op.render ++ " "), Frag.text "("] ++
              (renderExpr r ++ [Frag.text ")"])) = true := by
          refine paramsSafe_append_noParams rfl ?_
          exact paramsSafe_append ihr rfl (safeHead_rparen [])
        have tailHead : safeHead
            ([Frag.text (" " ++ op.render ++ " "), Frag.text "("] ++
              (renderExpr r ++ [Frag.text ")"])) = true := safeHead_sep op _
        split
        · exact paramsSafe_append ihl tail tailHead
        · simp only [List.append_assoc]
          refine paramsSafe_append_noParams rfl ?_
          refine paramsSafe_append ihl ?_ (safeHead_rparen _)
          exact paramsSafe_append_noParams rfl tail
  | unaryNot e ih =>
      rw [renderExpr]
      simp only [List.append_assoc]
      refine paramsSafe_append_noParams rfl ?_
      exact paramsSafe_append ih rfl (safeHead_rparen [])

theorem renderExpr_noDollar (e : SimpleExpr) (h : exprNoDollar e = true) :
    fragsNoDollar (renderExpr e) = true := by
  induction e with
  | custom s =>
      rw [exprNoDollar] at h
      simp [renderExpr, fragsNoDollar, fragNoDollar, h]
  | value v => rfl
  | keywordNull => rfl
  | tuple vs =>
      rw [renderExpr]
      have := interParen_noDollar vs
      rw [List.append_assoc, List.singleton_append, fragsNoDollar, List.all_cons,
        Bool.and_eq_true]
      exact ⟨by decide, this⟩
  | binary l op r ihl ihr =>
      rw [exprNoDollar, Bool.and_eq_true] at h
      rw [renderExpr]
      split
      · decide
      · have hsep : fragsNoDollar
            [Frag.text (" " ++ op.render ++ " "), Frag.text "("] = true := by
          simp only [fragsNoDollar, List.all_cons, List.all_nil, Bool.and_true, fragNoDollar]
          rw [Bool.and_eq_true]
          exact ⟨binOpSep_noDollar op, by decide⟩
        split
        · simp only [fragsNoDollar_append, Bool.and_eq_true]
          exact ⟨⟨⟨ihl h.1, hsep⟩, ihr h.2⟩, by decide⟩
        · simp only [fragsNoDollar_append, Bool.and_eq_true]
          exact ⟨⟨⟨⟨⟨by decide, ihl h.1⟩, by decide⟩, hsep⟩, ihr h.2⟩, by decide⟩
  | unaryNot e ih =>
      rw [exprNoDollar] at h
      rw [renderExpr]
      simp only [fragsNoDollar_append, Bool.and_eq_true]
      exact ⟨⟨by decide, ih h⟩, by decide⟩

/-! ### Identifier strings stay `$`-free through quoting -/

theorem strNoDollar_append (a b : String) :
    strNoDollar (a ++ b) = (strNoDollar a && strNoDollar b) := by
  simp [strNoDollar, String.data_append]

theorem quoted_column_noDollar {t c : String} (ht : strNoDollar t = true)
    (hc : strNoDollar c = true) : strNoDollar (quoted_column t c) = true := by
  rw [quoted_column]
  simp only [strNoDollar_append, Bool.and_eq_true]
  exact ⟨⟨⟨⟨by decide, ht⟩, by decide⟩, hc⟩, by decide⟩

theorem quoteIdent_noDollar {t : String} (ht : strNoDollar t = true) :
    strNoDollar (quoteIdent t) = true := by
  rw [quoteIdent]
  simp only [strNoDollar_append, Bool.and_eq_true]
  exact ⟨⟨by decide, ht⟩, by decide⟩

theorem headIs_append (a b : String) (c : Char) (h : ∃ cs, a.data = c :: cs) :
    ∃ cs, (a ++ b).data = c :: cs := by
  obtain ⟨cs, hcs⟩ := h
  exact ⟨cs ++ b.data, by simp [String.data_append, hcs]⟩

theorem safeHead_cons_head {s : String} {c : Char} (hc : isDigitChar c = false)
    (h : ∃ cs, s.data = c :: cs) (rest : List Frag) :
    safeHead (Frag.text s :: rest) = true := by
  obtain ⟨cs, hcs⟩ := h
  exact safeHead_cons_of_head hcs hc rest

/-! ### `joinFragLists` preserves goodness -/

theorem noParams_append (a b : List Frag) :
    noParams (a ++ b) = (noParams a && noParams b) := by
  simp [noParams, List.all_append]

theorem joinFragLists_paramsSafe (sep : List Frag) (xs : List (List Frag))
    (hxs : ∀ x ∈ xs, paramsSafe x = true) (hnp : noParams sep = true)
    (hh : safeHead sep = true) (hs : (fragsHeadChar sep).isSome = true) :
    paramsSafe (joinFragLists sep xs) = true := by
  induction xs with
  | nil => rfl
  | cons x xs ih =>
      cases xs with
      | nil => exact hxs x (by simp)
      | cons y rest =>
          show paramsSafe (x ++ sep ++ joinFragLists sep (y :: rest)) = true
          rw [List.append_assoc]
          refine paramsSafe_append (hxs x (by simp)) ?_ ?_
          · refine paramsSafe_append_noParams hnp ?_
            exact ih (fun z hz => hxs z (List.mem_cons_of_mem x hz))
          · exact safeHead_append_left hh hs

theorem joinFragLists_noDollar (sep : List Frag) (xs : List (List Frag))
    (hxs : ∀ x ∈ xs, fragsNoDollar x = true) (hsep : fragsNoDollar sep = true) :
    fragsNoDollar (joinFragLists sep xs) = true := by
  induction xs with
  | nil => rfl
  | cons x xs ih =>
      cases xs with
      | nil => exact hxs x (by simp)
      | cons y rest =>
          show fragsNoDollar (x ++ sep ++ joinFragLists sep (y :: rest)) = true
          simp only [fragsNoDollar_append, Bool.and_eq_true]
          exact ⟨⟨hxs x (by simp), hsep⟩,
            ih (fun z hz => hxs z (List.mem_cons_of_mem x hz))⟩

theorem joinFragLists_noParams (sep : List Frag) (xs : List (List Frag))
    (hxs : ∀ x ∈ xs, noParams x = true) (hsep : noParams sep = true) :
    noParams (joinFragLists sep xs) = true := by
  induction xs with
  | nil => rfl
  | cons x xs ih =>
      cases xs with
      | nil => exact hxs x (by simp)
      | cons y rest =>
          show noParams (x ++ sep ++ joinFragLists sep (y :: rest)) = true
          simp only [noParams_append, Bool.and_eq_true]
          exact ⟨⟨hxs x (by simp), hsep⟩,
            ih (fun z hz => hxs z (List.mem_cons_of_mem x hz))⟩

/-! ### Goodness of the statement components -/

theorem renderConds_paramsSafe (cs : List SimpleExpr) :
    paramsSafe (renderConds cs) = true := by
  match cs with
  | [] => rfl
  | [c] =>
      show paramsSafe ([Frag.text " WHERE "] ++ renderExpr c) = true
      exact paramsSafe_append_noParams rfl (renderExpr_paramsSafe c)
  | c1 :: c2 :: rest =>
      show paramsSafe ([Frag.text " WHERE "] ++ joinFragLists [Frag.text " AND "]
        ((c1 :: c2 :: rest).map
          (fun c => [Frag.text "("] ++ renderExpr c ++ [Frag.text ")"]))) = true
      refine paramsSafe_append_noParams rfl ?_
      refine joinFragLists_paramsSafe _ _ ?_ rfl (safeHead_cons_of_head rfl (by decide) []) rfl
      intro x hx
      rw [List.mem_map] at hx
      obtain ⟨cc, _, hcc⟩ := hx
      subst hcc
      rw [List.append_assoc]
      refine paramsSafe_append_noParams rfl ?_
      exact paramsSafe_append (renderExpr_paramsSafe cc) rfl (safeHead_rparen [])

theorem renderConds_noDollar (cs : List SimpleExpr)
    (h : ∀ c ∈ cs, exprNoDollar c = true) :
    fragsNoDollar (renderConds cs) = true := by
  match cs with
  | [] => rfl
  | [c] =>
      show fragsNoDollar ([Frag.text " WHERE "] ++ renderExpr c) = true
      simp only [fragsNoDollar_append, Bool.and_eq_true]
      exact ⟨by decide, renderExpr_noDollar c (h c (by simp))⟩
  | c1 :: c2 :: rest =>
      show fragsNoDollar ([Frag.text " WHERE "] ++ joinFragLists [Frag.text " AND "]
        ((c1 :: c2 :: rest).map
          (fun c => [Frag.text "("] ++ renderExpr c ++ [Frag.text ")"]))) = true
      simp only [fragsNoDollar_append, Bool.and_eq_true]
      refine ⟨by decide, ?_⟩
      refine joinFragLists_noDollar _ _ ?_ (by decide)
      intro x hx
      rw [List.mem_map] at hx
      obtain ⟨cc, hmem, hcc⟩ := hx
      subst hcc
      simp only [fragsNoDollar_append, Bool.and_eq_true]
      exact ⟨⟨by decide, renderExpr_noDollar cc (h cc hmem)⟩, by decide⟩

theorem safeHead_renderConds (cs : List SimpleExpr) :
    safeHead (renderConds cs) = true := by
  match cs with
  | [] => rfl
  | [c] => exact safeHead_cons_of_head rfl (by decide) _
  | c1 :: c2 :: rest =>
      show safeHead (Frag.text " WHERE " :: joinFragLists [Frag.text " AND "] _) = true
      exact safeHead_cons_of_head rfl (by decide) _

theorem projectionFrags_noParams (b : SelectBuilder) :
    noParams (projectionFrags b) = true := by
  rw [projectionFrags]
  split
  · rfl
  · refine joinFragLists_noParams _ _ ?_ rfl
    intro x hx
    rcases List.mem_append.1 hx with h | h <;>
      · rw [List.mem_map] at h
        obtain ⟨c, _, hc⟩ := h
        subst hc
        rfl

theorem projectionFrags_noDollar (b : SelectBuilder)
    (htable : strNoDollar b.table = true)
    (hcols : b.columns.all strNoDollar = true)
    (haliases : b.aliases.all
      (fun a => strNoDollar a.1 && strNoDollar a.2.1 && strNoDollar a.2.2) = true) :
    fragsNoDollar (projectionFrags b) = true := by
  rw [projectionFrags]
  split
  · rfl
  · refine joinFragLists_noDollar _ _ ?_ (by decide)
    intro x hx
    rcases List.mem_append.1 hx with h | h
    · rw [List.mem_map] at h
      obtain ⟨c, hmem, hc⟩ := h
      subst hc
      have hcnd : strNoDollar c = true := by
        rw [List.all_eq_true] at hcols
        exact hcols c hmem
      simp [fragsNoDollar, fragNoDollar, quoted_column_noDollar htable hcnd]
    · rw [List.mem_map] at h
      obtain ⟨a, hmem, ha⟩ := h
      subst ha
      rw [List.all_eq_true] at haliases
      have := haliases a hmem
      rw [Bool.and_eq_true, Bool.and_eq_true] at this
      simp only [fragsNoDollar, List.all_cons, List.all_nil, Bool.and_true, fragNoDollar]
      rw [strNoDollar_append, strNoDollar_append, Bool.and_eq_true, Bool.and_eq_true]
      exact ⟨⟨quoted_column_noDollar this.1.2 this.2, by decide⟩,
        quoteIdent_noDollar this.1.1⟩

theorem joinsFrags_safeHead (js : List JoinSpec) : safeHead (joinsFrags js) = true := by
  cases js with
  | nil => rfl
  | cons j rest =>
      show safeHead (Frag.text (" " ++ j.kind.render ++ " " ++ quoteIdent j.table ++ " ON ")
        :: (renderExpr j.onExpr ++ joinsFrags rest)) = true
      have hh : ∃ cs, (" " ++ j.kind.render ++ " " ++ quoteIdent j.table ++ " ON ").data
          = ' ' :: cs := by
        refine headIs_append _ _ _ ?_
        refine headIs_append _ _ _ ?_
        refine headIs_append _ _ _ ?_
        exact ⟨j.kind.render.data, by simp [String.data_append]⟩
      exact safeHead_cons_head (by decide) hh _

theorem joinsFrags_paramsSafe (js : List JoinSpec) :
    paramsSafe (joinsFrags js) = true := by
  induction js with
  | nil => rfl
  | cons j rest ih =>
      show paramsSafe (Frag.text (" " ++ j.kind.render ++ " " ++ quoteIdent j.table ++ " ON ")
        :: (renderExpr j.onExpr ++ joinsFrags rest)) = true
      rw [paramsSafe]
      exact paramsSafe_append (renderExpr_paramsSafe _) ih (joinsFrags_safeHead rest)

theorem kindRender_noDollar (k : JoinKind) : strNoDollar k.render = true := by
  cases k <;> decide

theorem joinsFrags_noDollar (js : List JoinSpec)
    (h : js.all (fun j => strNoDollar j.table && exprNoDollar j.onExpr) = true) :
    fragsNoDollar (joinsFrags js) = true := by
  induction js with
  | nil => rfl
  | cons j rest ih =>
      rw [List.all_cons, Bool.and_eq_true, Bool.and_eq_true] at h
      show fragsNoDollar (Frag.text (" " ++ j.kind.render ++ " " ++ quoteIdent j.table ++ " ON ")
        :: (renderExpr j.onExpr ++ joinsFrags rest)) = true
      rw [fragsNoDollar, List.all_cons, Bool.and_eq_true]
      constructor
      · show strNoDollar _ = true
        simp only [strNoDollar_append, Bool.and_eq_true]
        exact ⟨⟨⟨⟨by decide, kindRender_noDollar j.kind⟩, by decide⟩,
          quoteIdent_noDollar h.1.1⟩, by decide⟩
      · show fragsNoDollar (renderExpr j.onExpr ++ joinsFrags rest) = true
        rw [fragsNoDollar_append, Bool.and_eq_true]
        exact ⟨renderExpr_noDollar _ h.1.2, ih h.2⟩

theorem orderFrags_noParams (t : String) (ord : List (String × Order)) :
    noParams (orderFrags t ord) = true := by
  rw [orderFrags]
  split
  · rfl
  · show noParams (Frag.text " ORDER BY " :: joinFragLists [Frag.text ", "]
      (ord.map (fun oc => [Frag.text (quoted_column t oc.1 ++ " " ++ oc.2.render)]))) = true
    rw [noParams, List.all_cons, Bool.and_eq_true]
    refine ⟨rfl, ?_⟩
    refine joinFragLists_noParams _ _ ?_ rfl
    intro x hx
    rw [List.mem_map] at hx
    obtain ⟨oc, _, hoc⟩ := hx
    subst hoc
    rfl

theorem orderDir_noDollar (d : Order) : strNoDollar d.render = true := by
  cases d <;> decide

theorem orderFrags_noDollar (t : String) (ord : List (String × Order))
    (ht : strNoDollar t = true) (h : ord.all (fun oc => strNoDollar oc.1) = true) :
    fragsNoDollar (orderFrags t ord) = true := by
  rw [orderFrags]
  split
  · rfl
  · rw [fragsNoDollar_append, Bool.and_eq_true]
    refine ⟨by decide, ?_⟩
    refine joinFragLists_noDollar _ _ ?_ (by decide)
    intro x hx
    rw [List.mem_map] at hx
    obtain ⟨oc, hmem, hoc⟩ := hx
    subst hoc
    rw [List.all_eq_true] at h
    simp only [fragsNoDollar, List.all_cons, List.all_nil, Bool.and_true, fragNoDollar]
    rw [strNoDollar_append, strNoDollar_append, Bool.and_eq_true, Bool.and_eq_true]
    exact ⟨⟨quoted_column_noDollar ht (h oc hmem), by decide⟩, orderDir_noDollar oc.2⟩

theorem orderFrags_safeHead (t : String) (ord : List (String × Order)) :
    safeHead (orderFrags t ord) = true := by
  rw [orderFrags]
  split
  · rfl
  · exact safeHead_cons_of_head rfl (by decide) _

theorem limitFrags_paramsSafe (l : Option Nat) : paramsSafe (limitFrags l) = true := by
  cases l <;> rfl

theorem limitFrags_noDollar (l : Option Nat) : fragsNoDollar (limitFrags l) = true := by
  cases l with
  | none => rfl
  | some v =>
      simp only [limitFrags, fragsNoDollar, List.all_cons, List.all_nil, Bool.and_true,
        fragNoDollar]
      decide

theorem limitFrags_safeHead (l : Option Nat) : safeHead (limitFrags l) = true := by
  cases l with
  | none => rfl
  | some v => exact safeHead_cons_of_head rfl (by decide) _

theorem offsetFrags_paramsSafe (o : Option Nat) : paramsSafe (offsetFrags o) = true := by
  cases o <;> rfl

theorem offsetFrags_noDollar (o : Option Nat) : fragsNoDollar (offsetFrags o) = true := by
  cases o with
  | none => rfl
  | some v =>
      simp only [offsetFrags, fragsNoDollar, List.all_cons, List.all_nil, Bool.and_true,
        fragNoDollar]
      decide

theorem offsetFrags_safeHead (o : Option Nat) : safeHead (offsetFrags o) = true := by
  cases o with
  | none => rfl
  | some v => exact safeHead_cons_of_head rfl (by decide) _

/-! ### Goodness of whole statements -/

theorem selectFrags_paramsSafe (b : SelectBuilder) : paramsSafe (selectFrags b) = true := by
  rw [selectFrags]
  simp only [List.append_assoc]
  refine paramsSafe_append_noParams rfl ?_
  refine paramsSafe_append_noParams (projectionFrags_noParams b) ?_
  refine paramsSafe_append_noParams rfl ?_
  refine paramsSafe_append (joinsFrags_paramsSafe _) ?_ ?_
  · refine paramsSafe_append (renderConds_paramsSafe _) ?_ ?_
    · refine paramsSafe_append_noParams (orderFrags_noParams _ _) ?_
      exact paramsSafe_append (limitFrags_paramsSafe _) (offsetFrags_paramsSafe _)
        (offsetFrags_safeHead _)
    · refine safeHead_append (orderFrags_safeHead _ _) ?_
      exact safeHead_append (limitFrags_safeHead _) (offsetFrags_safeHead _)
  · refine safeHead_append (safeHead_renderConds _) ?_
    refine safeHead_append (orderFrags_safeHead _ _) ?_
    exact safeHead_append (limitFrags_safeHead _) (offsetFrags_safeHead _)

theorem selectFrags_noDollar (b : SelectBuilder) (h : b.identsNoDollar = true) :
    fragsNoDollar (selectFrags b) = true := by
  rw [SelectBuilder.identsNoDollar] at h
  simp only [Bool.and_eq_true] at h
  obtain ⟨⟨⟨⟨⟨ht, hcols⟩, hal⟩, hfil⟩, hord⟩, hjoins⟩ := h
  have p1 : fragNoDollar (Frag.text "SELECT ") = true := by decide
  have p2 := projectionFrags_noDollar b ht hcols hal
  have p3 : fragNoDollar (Frag.text (" FROM " ++ quoteIdent b.table)) = true := by
    show strNoDollar _ = true
    rw [strNoDollar_append, Bool.and_eq_true]
    exact ⟨by decide, quoteIdent_noDollar ht⟩
  have p4 := joinsFrags_noDollar _ hjoins
  have p5 := renderConds_noDollar b.filters (by rw [List.all_eq_true] at hfil; exact hfil)
  have p6 := orderFrags_noDollar b.table b.order ht hord
  have p7 := limitFrags_noDollar b.limit
  have p8 := offsetFrags_noDollar b.offset
  rw [selectFrags]
  simp only [fragsNoDollar] at p2 p4 p5 p6 p7 p8 ⊢
  simp [List.all_cons, List.all_append, p1, p2, p3, p4, p5, p6, p7, p8]

theorem insertFrags_paramsSafe (b : InsertBuilder) : paramsSafe (insertFrags b) = true := by
  rw [insertFrags]
  simp only [List.append_assoc]
  refine paramsSafe_append_noParams rfl ?_
  refine paramsSafe_append_noParams ?_ ?_
  · refine joinFragLists_noParams _ _ ?_ rfl
    intro x hx
    rw [List.mem_map] at hx
    obtain ⟨cv, _, hcv⟩ := hx
    subst hcv
    rfl
  · refine paramsSafe_append_noParams rfl ?_
    refine paramsSafe_append ?_ rfl (safeHead_rparen [])
    refine joinFragLists_paramsSafe _ _ ?_ rfl (safeHead_cons_of_head rfl (by decide) []) rfl
    intro x hx
    rw [List.mem_map] at hx
    obtain ⟨cv, _, hcv⟩ := hx
    subst hcv
    rfl

theorem insertFrags_noDollar (b : InsertBuilder) (h : b.identsNoDollar = true) :
    fragsNoDollar (insertFrags b) = true := by
  rw [InsertBuilder.identsNoDollar, Bool.and_eq_true] at h
  obtain ⟨ht, hvals⟩ := h
  rw [List.all_eq_true] at hvals
  have p1 : fragNoDollar (Frag.text ("INSERT INTO " ++ quoteIdent b.table ++ " (")) = true := by
    show strNoDollar _ = true
    simp only [strNoDollar_append, Bool.and_eq_true]
    exact ⟨⟨by decide, quoteIdent_noDollar ht⟩, by decide⟩
  have p2 : fragsNoDollar (joinFragLists [Frag.text ", "]
      (b.values.map (fun cv => [Frag.text (quoteIdent cv.1)]))) = true := by
    refine joinFragLists_noDollar _ _ ?_ (by decide)
    intro x hx
    rw [List.mem_map] at hx
    obtain ⟨cv, hm, hcv⟩ := hx
    subst hcv
    simp [fragsNoDollar, fragNoDollar, quoteIdent_noDollar (hvals cv hm)]
  have p3 : fragsNoDollar (joinFragLists [Frag.text ", "]
      (b.values.map (fun cv => [Frag.param cv.2]))) = true := by
    refine joinFragLists_noDollar _ _ ?_ (by decide)
    intro x hx
    rw [List.mem_map] at hx
    obtain ⟨cv, _, hcv⟩ := hx
    subst hcv
    rfl
  have pv : fragNoDollar (Frag.text ") VALUES (") = true := by decide
  have pr : fragNoDollar (Frag.text ")") = true := by decide
  rw [insertFrags]
  simp only [fragsNoDollar] at p2 p3 ⊢
  simp [List.all_cons, List.all_append, p1, p2, p3, pv, pr]

theorem updateFrags_paramsSafe (b : UpdateBuilder) : paramsSafe (updateFrags b) = true := by
  rw [updateFrags]
  simp only [List.append_assoc]
  refine paramsSafe_append_noParams rfl ?_
  refine paramsSafe_append ?_ (renderConds_paramsSafe _) (safeHead_renderConds _)
  refine joinFragLists_paramsSafe _ _ ?_ rfl (safeHead_cons_of_head rfl (by decide) []) rfl
  intro x hx
  rw [List.mem_map] at hx
  obtain ⟨cv, _, hcv⟩ := hx
  subst hcv
  rfl

theorem updateFrags_noDollar (b : UpdateBuilder) (h : b.identsNoDollar = true) :
    fragsNoDollar (updateFrags b) = true := by
  rw [UpdateBuilder.identsNoDollar] at h
  simp only [Bool.and_eq_true] at h
  obtain ⟨⟨ht, hsets⟩, hfil⟩ := h
  rw [List.all_eq_true] at hsets
  have p1 : fragNoDollar (Frag.text ("UPDATE " ++ quoteIdent b.table ++ " SET ")) = true := by
    show strNoDollar _ = true
    simp only [strNoDollar_append, Bool.and_eq_true]
    exact ⟨⟨by decide, quoteIdent_noDollar ht⟩, by decide⟩
  have p2 : fragsNoDollar (joinFragLists [Frag.text ", "]
      (b.set_clauses.map (fun cv => [Frag.text (quoteIdent cv.1 ++ " = "), Frag.param cv.2])))
        = true := by
    refine joinFragLists_noDollar _ _ ?_ (by decide)
    intro x hx
    rw [List.mem_map] at hx
    obtain ⟨cv, hm, hcv⟩ := hx
    subst hcv
    simp only [fragsNoDollar, List.all_cons, List.all_nil, Bool.and_true, fragNoDollar]
    rw [strNoDollar_append, Bool.and_eq_true]
    exact ⟨quoteIdent_noDollar (hsets cv hm), by decide⟩
  have p3 := renderConds_noDollar b.filters (by rw [List.all_eq_true] at hfil; exact hfil)
  rw [updateFrags]
  simp only [fragsNoDollar] at p2 p3 ⊢
  simp [List.all_cons, List.all_append, p1, p2, p3]

theorem deleteFrags_paramsSafe (b : DeleteBuilder) : paramsSafe (deleteFrags b) = true := by
  rw [deleteFrags]
  exact paramsSafe_append_noParams rfl (renderConds_paramsSafe _)

theorem deleteFrags_noDollar (b : DeleteBuilder) (h : b.identsNoDollar = true) :
    fragsNoDollar (deleteFrags b) = true := by
  rw [DeleteBuilder.identsNoDollar, Bool.and_eq_true] at h
  obtain ⟨ht, hfil⟩ := h
  have p1 : fragNoDollar (Frag.text ("DELETE FROM " ++ quoteIdent b.table)) = true := by
    show strNoDollar _ = true
    rw [strNoDollar_append, Bool.and_eq_true]
    exact ⟨by decide, quoteIdent_noDollar ht⟩
  have p2 := renderConds_noDollar b.filters (by rw [List.all_eq_true] at hfil; exact hfil)
  rw [deleteFrags]
  simp only [fragsNoDollar] at p2 ⊢
  simp [List.all_cons, List.all_append, p1, p2]

theorem statementFrags_good (st : Statement) (h : st.identsNoDollar = true) :
    goodFrags (statementFrags st) = true := by
  cases st with
  | select b =>
      rw [goodFrags, Bool.and_eq_true]
      exact ⟨selectFrags_noDollar b h, selectFrags_paramsSafe b⟩
  | insert b =>
      rw [goodFrags, Bool.and_eq_true]
      exact ⟨insertFrags_noDollar b h, insertFrags_paramsSafe b⟩
  | update b =>
      rw [goodFrags, Bool.and_eq_true]
      exact ⟨updateFrags_noDollar b h, updateFrags_paramsSafe b⟩
  | delete b =>
      rw [goodFrags, Bool.and_eq_true]
      exact ⟨deleteFrags_noDollar b h, deleteFrags_paramsSafe b⟩

/-! ### Parameter conversion preserves length -/

theorem values_to_wasi_datatypes_length (vs : List SeaValue) :
    ∀ ps, values_to_wasi_datatypes vs = .ok ps → ps.length = vs.length := by
  induction vs with
  | nil =>
      intro ps h
      rw [values_to_wasi_datatypes] at h
      cases h
      rfl
  | cons v rest ih =>
      intro ps h
      rw [values_to_wasi_datatypes] at h
      cases hv : value_to_wasi_datatype v with
      | error e => rw [hv] at h; simp at h
      | ok d =>
          rw [hv] at h
          cases hr : values_to_wasi_datatypes rest with
          | error e => rw [hr] at h; simp at h
          | ok ds =>
              rw [hr] at h
              simp only [Except.ok.injEq] at h
              subst h
              simp [ih ds hr]

theorem flattenFrom_head (fs : List Frag) :
    ∀ k, (flattenFrom k fs).head? = fragsHeadChar fs := by
  induction fs with
  | nil => intro k; rfl
  | cons f rest ih =>
      intro k
      cases f with
      | text s =>
          rw [flattenFrom, fragsHeadChar]
          cases hd : s.data with
          | nil => simpa [hd] using ih k
          | cons c cs => simp [hd]
      | param v =>
          rw [flattenFrom, fragsHeadChar]
          simp

theorem safeHead_case (fs : List Frag) (h : safeHead fs = true) :
    ∀ c, fragsHeadChar fs = some c → isDigitChar c = false := by
  intro c hc
  unfold safeHead at h
  rw [hc] at h
  simpa using h

/-! ### The scanner reads back exactly the pushed placeholders -/

theorem scan_flattenFrom (fs : List Frag) :
    ∀ k, fragsNoDollar fs = true → paramsSafe fs = true →
      scanPlaceholders (flattenFrom k fs) = List.range' (k + 1) (fragParams fs).length := by
  induction fs with
  | nil =>
      intro k _ _
      simp [flattenFrom, scanPlaceholders, scanAux, fragParams, List.range']
  | cons f rest ih =>
      intro k h1 h2
      rw [fragsNoDollar, List.all_cons, Bool.and_eq_true] at h1
      cases f with
      | text s =>
          rw [paramsSafe] at h2
          rw [flattenFrom, scan_append_noDollar]
          · rw [fragParams]
            exact ih k h1.2 h2
          · have := h1.1
            rw [fragNoDollar, strNoDollar] at this
            simpa using this
      | param v =>
          rw [paramsSafe, Bool.and_eq_true] at h2
          rw [flattenFrom, List.cons_append]
          have htd : takeDigits (natDigits (k + 1) ++ flattenFrom (k + 1) rest)
              = (natDigits (k + 1), flattenFrom (k + 1) rest) := by
            refine takeDigits_digits_append _ _ (natDigits_all_digits (k + 1)) ?_
            intro c hc
            rw [flattenFrom_head rest (k + 1)] at hc
            exact safeHead_case rest h2.1 c hc
          show scanAux ('$' :: (natDigits (k + 1) ++ flattenFrom (k + 1) rest)).length
              ('$' :: (natDigits (k + 1) ++ flattenFrom (k + 1) rest)) = _
          rw [List.length_cons, scanAux, if_pos rfl, htd]
          simp only [List.isEmpty_iff]
          rw [if_neg (natDigits_ne_nil (k + 1))]
          rw [digitsToNat_natDigits]
          have hirr : scanAux (natDigits (k + 1) ++ flattenFrom (k + 1) rest).length
              (flattenFrom (k + 1) rest) = scanPlaceholders (flattenFrom (k + 1) rest) := by
            refine scanAux_irrel _ _ _ ?_ le_rfl
            rw [List.length_append]
            omega
          rw [hirr, ih (k + 1) h1.2 h2.2]
          rw [fragParams, List.length_cons, List.range'_succ]

/-! ## Claim C1 -/

/-- **C1.**  For every `Query` produced by building a `SelectBuilder`,
`InsertBuilder`, `UpdateBuilder`, `DeleteBuilder`, or by `build_query`
(each builder's `build` is definitionally `build_query` of the wrapped
statement, as the final conjuncts record), the `$N` placeholders occurring
in the `sql` string are exactly `$1..$n` with no gaps, numbered left to
right in encounter order, with `n = params.len()`; in particular the number
of placeholders equals `params.len()`.  The hypothesis `identsNoDollar`
states that the builder's identifier strings (table, column, alias names)
contain no `$` character, so that the placeholder count of the text is
well defined. -/
theorem C1_placeholder_invariant (st : Statement) (q : Query)
    (hids : st.identsNoDollar = true) (hq : build_query st = .ok q) :
    placeholderIndices q.sql = List.range' 1 q.params.length ∧
      countPlaceholders q.sql = q.params.length ∧
      (∀ b : SelectBuilder, b.build = build_query (.select b)) ∧
      (∀ b : InsertBuilder, b.build = build_query (.insert b)) ∧
      (∀ b : UpdateBuilder, b.build = build_query (.update b)) ∧
      (∀ b : DeleteBuilder, b.build = build_query (.delete b)) := by
  have hg := statementFrags_good st hids
  rw [goodFrags, Bool.and_eq_true] at hg
  rw [build_query, buildFrags] at hq
  cases hv : values_to_wasi_datatypes (fragParams (statementFrags st)) with
  | error e => rw [hv] at hq; simp at hq
  | ok ps =>
      rw [hv] at hq
      simp only [Except.ok.injEq] at hq
      subst hq
      have hlen := values_to_wasi_datatypes_length _ ps hv
      have hscan := scan_flattenFrom (statementFrags st) 0 hg.1 hg.2
      refine ⟨?_, ?_, fun b => rfl, fun b => rfl, fun b => rfl, fun b => rfl⟩
      · show scanPlaceholders (flattenFrom 0 (statementFrags st)) = _
        rw [hscan, hlen]
      · show (scanPlaceholders (flattenFrom 0 (statementFrags st))).length = _
        rw [hscan, List.length_range', hlen]

/-- Witness for C1 at a concrete statement:
`SELECT * FROM "users" LIMIT $1 OFFSET $2` with two parameters. -/
theorem C1_placeholder_invariant_witness :
    build_query (Statement.select ((SelectBuilder.new "users").setLimit 10 |>.setOffset 5)) =
      .ok ⟨"SELECT * FROM \x22users\x22 LIMIT $1 OFFSET $2",
        [.uint64 (some 10), .uint64 (some 5)]⟩ ∧
    placeholderIndices "SELECT * FROM \x22users\x22 LIMIT $1 OFFSET $2" = List.range' 1 2 ∧
    countPlaceholders "SELECT * FROM \x22users\x22 LIMIT $1 OFFSET $2" = 2 := by
  have hq : build_query
      (Statement.select ((SelectBuilder.new "users").setLimit 10 |>.setOffset 5)) =
      .ok ⟨"SELECT * FROM \x22users\x22 LIMIT $1 OFFSET $2",
        [.uint64 (some 10), .uint64 (some 5)]⟩ := by rfl
  have hmain := C1_placeholder_invariant
    (Statement.select ((SelectBuilder.new "users").setLimit 10 |>.setOffset 5))
    ⟨"SELECT * FROM \x22users\x22 LIMIT $1 OFFSET $2", [.uint64 (some 10), .uint64 (some 5)]⟩
    (by decide) hq
  exact ⟨hq, hmain.1, hmain.2.1⟩

/-! ## Claim C2 -/

set_option maxRecDepth 4000 in
/-- **C2 counterexample.**  The claim says an unqualified comparison leaf in
a join's `on` filter renders qualified by the *joined* table.  In the code,
`SelectBuilder::join` passes the builder's *primary* table into
`Join::into_join_spec`, so the leaf is qualified by the primary table:
joining `"roles"` onto `"users"` with `on = (role_id = $1)` yields
`ON ("users"."role_id") = ($1)` — the SQL contains `"users"."role_id"` and
does not contain `"roles"."role_id"`. -/
theorem C2_join_qualifier_counterexample :
    ∃ q, SelectBuilder.build ((SelectBuilder.new "users").join
        (Join.inner "roles" (Filter.eq "role_id" (SeaValue.int (some 1))))) = .ok q ∧
      ¬ ("\x22roles\x22.\x22role_id\x22".data <:+: q.sql.data) ∧
      ("\x22users\x22.\x22role_id\x22".data <:+: q.sql.data) := by
  have h1 : Filter.into_expr "users" (Filter.eq "role_id" (SeaValue.int (some 1)))
      = SimpleExpr.binary (.custom (quoted_column "users" "role_id")) .eq
          (.value (SeaValue.int (some 1))) := by
    rw [Filter.eq, Filter.into_expr]
    rfl
  have h2 : (SelectBuilder.new "users").join
      (Join.inner "roles" (Filter.eq "role_id" (SeaValue.int (some 1))))
      = { table := "users",
          joins := [⟨"roles",
            SimpleExpr.binary (.custom (quoted_column "users" "role_id")) .eq
              (.value (SeaValue.int (some 1))), JoinKind.inner⟩] } := by
    simp [SelectBuilder.join, SelectBuilder.new, Join.into_join_spec, Join.inner, h1]
  rw [h2]
  exact ⟨_, rfl, by decide, by decide⟩

/-- **C2 amended.**  Joins render in insertion order after the `FROM`
clause, and an unqualified comparison leaf in a join's `on` filter is
qualified by the builder's *primary* table (`SelectBuilder::join` passes
`&self.table` as the default table), not by the joined table. -/
theorem C2_join_render_amended (b : SelectBuilder) (jt col : String) (v : SeaValue)
    (kind : JoinKind) :
    selectFrags (b.join (Join.mk jt (Filter.Eq none col v) kind)) =
      [Frag.text "SELECT "] ++ projectionFrags b ++
        [Frag.text (" FROM " ++ quoteIdent b.table)] ++
        joinsFrags b.joins ++
        ([Frag.text (" " ++ kind.render ++ " " ++ quoteIdent jt ++ " ON ")] ++
          [Frag.text "(", Frag.text (quoted_column b.table col), Frag.text ")",
           Frag.text " = ", Frag.text "(", Frag.param v, Frag.text ")"]) ++
        renderConds b.filters ++ orderFrags b.table b.order ++
        limitFrags b.limit ++ offsetFrags b.offset := by
  have h1 : Filter.into_expr b.table (Filter.Eq none col v)
      = SimpleExpr.binary (.custom (quoted_column b.table col)) .eq (.value v) := by
    rw [Filter.into_expr]
    rfl
  simp [selectFrags, SelectBuilder.join, Join.into_join_spec, h1, joinsFrags,
    renderExpr, leftNoParen, BinOper.render]
  rfl

/-! ## Claim C7 -/

theorem quoted_column_head (X c : String) :
    (quoted_column X c).data.head? = some '\x22' := by
  simp [quoted_column, String.data_append]

theorem requalify_hit (fromRef toRef : String) :
    requalify fromRef toRef (Frag.text fromRef) = Frag.text toRef := by
  simp [requalify]

theorem requalify_param (fromRef toRef : String) (v : SeaValue) :
    requalify fromRef toRef (Frag.param v) = Frag.param v := by
  simp [requalify]

theorem requalify_miss {s : String} (X c toRef : String)
    (h : s.data.head? ≠ some '\x22') :
    requalify (quoted_column X c) toRef (Frag.text s) = Frag.text s := by
  unfold requalify
  rw [if_neg]
  intro heq
  apply h
  have hs : s = quoted_column X c := by
    simpa using heq
  rw [hs, quoted_column_head]

theorem requalify_inter (X c toRef : String) (vs : List SeaValue) :
    (List.intersperse (Frag.text ", ") (vs.map Frag.param)).map
      (requalify (quoted_column X c) toRef)
      = List.intersperse (Frag.text ", ") (vs.map Frag.param) := by
  induction vs with
  | nil => rfl
  | cons v vs ih =>
      cases vs with
      | nil => simp [requalify_param]
      | cons v2 rest =>
          show (Frag.param v :: Frag.text ", " ::
              List.intersperse (Frag.text ", ") ((v2 :: rest).map Frag.param)).map _ = _
          rw [List.map_cons, List.map_cons, ih, requalify_param,
            requalify_miss X c toRef (by decide)]
          rfl

/-- Renderings of a comparison leaf against two qualifiers differ exactly by
relabelling the column-reference fragment, provided the binary operator is
not the empty-`IN` special case and the right operand's rendering is
invariant under the relabelling. -/
theorem leaf_render_requalify (origT t c : String) (op : BinOper) (rhs : SimpleExpr)
    (hcond : (op == BinOper.inOp && rhs == SimpleExpr.tuple []) = false)
    (hrhs : (renderExpr rhs).map (requalify (quoted_column origT c) (quoted_column t c))
      = renderExpr rhs) :
    renderExpr (.binary (.custom (quoted_column t c)) op rhs) =
      (renderExpr (.binary (.custom (quoted_column origT c)) op rhs)).map
        (requalify (quoted_column origT c) (quoted_column t c)) := by
  have hbin : ∀ s : String, renderExpr (.binary (.custom s) op rhs) =
      [Frag.text "(", Frag.text s, Frag.text ")", Frag.text (" " ++ op.render ++ " "),
        Frag.text "("] ++ renderExpr rhs ++ [Frag.text ")"] := by
    intro s
    rw [renderExpr, if_neg (by simp [hcond])]
    rw [show leftNoParen (SimpleExpr.custom s) op = false from rfl]
    simp [renderExpr]
  rw [hbin, hbin]
  simp only [List.map_append, List.map_cons, List.map_nil, hrhs]
  rw [requalify_hit, requalify_miss origT c _ (by decide), requalify_miss origT c _ (by decide)]
  have hsep : (" " ++ op.render ++ " ").data.head? = some ' ' := by
    simp [String.data_append]
  rw [requalify_miss origT c _ (by rw [hsep]; decide)]

/-- **C7.**  `Filter::on(t)` sets the table qualifier of a comparison leaf
(Eq, Gt, Lt, In, IsNull, IsNotNull, Like) to `t` and passes every other
filter (combinators `And`/`Or`/`Not`, and `ColEq`) through unchanged; and
for a comparison leaf, the rendering of `f.on(t)` equals the rendering of
`f` with the leaf's column-reference fragment relabelled from the original
qualifier (defaulting to the rendering table) to `t` — i.e. the renderings
differ only in the table qualification of the comparison leaf. -/
theorem C7_filter_on (f : Filter) (t d : String) :
    (f.isCompLeaf = false → f.on t = f) ∧
    (f.isCompLeaf = true →
      (f.on t).leafQual = some t ∧ (f.on t).leafCol = f.leafCol ∧
      ∀ col, f.leafCol = some col →
        renderExpr (Filter.into_expr d (f.on t)) =
          (renderExpr (Filter.into_expr d f)).map
            (requalify (quoted_column (f.leafQual.getD d) col) (quoted_column t col))) := by
  cases f with
  | Eq tq c vv =>
      refine ⟨fun hf => by simp [Filter.isCompLeaf] at hf, fun _ => ⟨rfl, rfl, ?_⟩⟩
      intro col hcol
      obtain rfl : c = col := by simpa [Filter.leafCol] using hcol
      show renderExpr (Filter.into_expr d (Filter.Eq (some t) c vv)) = _
      rw [Filter.into_expr, Filter.into_expr]
      simp only [Filter.resolve_column, Option.getD_some, Filter.leafQual]
      exact leaf_render_requalify (tq.getD d) t c .eq (.value vv) rfl
        (by rw [renderExpr, List.map_cons, List.map_nil, requalify_param])
  | Gt tq c vv =>
      refine ⟨fun hf => by simp [Filter.isCompLeaf] at hf, fun _ => ⟨rfl, rfl, ?_⟩⟩
      intro col hcol
      obtain rfl : c = col := by simpa [Filter.leafCol] using hcol
      show renderExpr (Filter.into_expr d (Filter.Gt (some t) c vv)) = _
      rw [Filter.into_expr, Filter.into_expr]
      simp only [Filter.resolve_column, Option.getD_some, Filter.leafQual]
      exact leaf_render_requalify (tq.getD d) t c .gt (.value vv) rfl
        (by rw [renderExpr, List.map_cons, List.map_nil, requalify_param])
  | Lt tq c vv =>
      refine ⟨fun hf => by simp [Filter.isCompLeaf] at hf, fun _ => ⟨rfl, rfl, ?_⟩⟩
      intro col hcol
      obtain rfl : c = col := by simpa [Filter.leafCol] using hcol
      show renderExpr (Filter.into_expr d (Filter.Lt (some t) c vv)) = _
      rw [Filter.into_expr, Filter.into_expr]
      simp only [Filter.resolve_column, Option.getD_some, Filter.leafQual]
      exact leaf_render_requalify (tq.getD d) t c .lt (.value vv) rfl
        (by rw [renderExpr, List.map_cons, List.map_nil, requalify_param])
  | Like tq c pat =>
      refine ⟨fun hf => by simp [Filter.isCompLeaf] at hf, fun _ => ⟨rfl, rfl, ?_⟩⟩
      intro col hcol
      obtain rfl : c = col := by simpa [Filter.leafCol] using hcol
      show renderExpr (Filter.into_expr d (Filter.Like (some t) c pat)) = _
      rw [Filter.into_expr, Filter.into_expr]
      simp only [Filter.resolve_column, Option.getD_some, Filter.leafQual]
      exact leaf_render_requalify (tq.getD d) t c .like (.value (.string (some pat))) rfl
        (by rw [renderExpr, List.map_cons, List.map_nil, requalify_param])
  | IsNull tq c =>
      refine ⟨fun hf => by simp [Filter.isCompLeaf] at hf, fun _ => ⟨rfl, rfl, ?_⟩⟩
      intro col hcol
      obtain rfl : c = col := by simpa [Filter.leafCol] using hcol
      show renderExpr (Filter.into_expr d (Filter.IsNull (some t) c)) = _
      rw [Filter.into_expr, Filter.into_expr]
      simp only [Filter.resolve_column, Option.getD_some, Filter.leafQual]
      exact leaf_render_requalify (tq.getD d) t c .isOp .keywordNull rfl
        (by rw [renderExpr, List.map_cons, List.map_nil,
              requalify_miss (tq.getD d) c _ (by decide)])
  | IsNotNull tq c =>
      refine ⟨fun hf => by simp [Filter.isCompLeaf] at hf, fun _ => ⟨rfl, rfl, ?_⟩⟩
      intro col hcol
      obtain rfl : c = col := by simpa [Filter.leafCol] using hcol
      show renderExpr (Filter.into_expr d (Filter.IsNotNull (some t) c)) = _
      rw [Filter.into_expr, Filter.into_expr]
      simp only [Filter.resolve_column, Option.getD_some, Filter.leafQual]
      exact leaf_render_requalify (tq.getD d) t c .isNot .keywordNull rfl
        (by rw [renderExpr, List.map_cons, List.map_nil,
              requalify_miss (tq.getD d) c _ (by decide)])
  | In tq c vals =>
      refine ⟨fun hf => by simp [Filter.isCompLeaf] at hf, fun _ => ⟨rfl, rfl, ?_⟩⟩
      intro col hcol
      obtain rfl : c = col := by simpa [Filter.leafCol] using hcol
      show renderExpr (Filter.into_expr d (Filter.In (some t) c vals)) = _
      rw [Filter.into_expr, Filter.into_expr]
      simp only [Filter.resolve_column, Option.getD_some, Filter.leafQual]
      cases vals with
      | nil =>
          show [Frag.text "(", Frag.param (SeaValue.int (some 1)), Frag.text ") = (",
              Frag.param (SeaValue.int (some 2)), Frag.text ")"] =
            List.map (requalify (quoted_column (tq.getD d) c) (quoted_column t c))
              [Frag.text "(", Frag.param (SeaValue.int (some 1)), Frag.text ") = (",
               Frag.param (SeaValue.int (some 2)), Frag.text ")"]
          rw [List.map_cons, List.map_cons, List.map_cons, List.map_cons, List.map_cons,
            List.map_nil, requalify_param, requalify_param,
            requalify_miss (tq.getD d) c _ (by decide),
            requalify_miss (tq.getD d) c _ (by decide),
            requalify_miss (tq.getD d) c _ (by decide)]
      | cons v vs =>
          refine leaf_render_requalify (tq.getD d) t c .inOp (.tuple (v :: vs)) rfl ?_
          rw [renderExpr]
          simp only [List.map_append, List.map_cons, List.map_nil]
          rw [show Frag.param v :: List.map Frag.param vs
              = List.map Frag.param (v :: vs) from rfl]
          rw [requalify_inter, requalify_miss (tq.getD d) c _ (by decide),
            requalify_miss (tq.getD d) c _ (by decide)]
  | ColEq t1 c1 t2 c2 =>
      exact ⟨fun _ => rfl, fun hf => by simp [Filter.isCompLeaf] at hf⟩
  | And fl =>
      exact ⟨fun _ => rfl, fun hf => by simp [Filter.isCompLeaf] at hf⟩
  | Or fl =>
      exact ⟨fun _ => rfl, fun hf => by simp [Filter.isCompLeaf] at hf⟩
  | Not g =>
      exact ⟨fun _ => rfl, fun hf => by simp [Filter.isCompLeaf] at hf⟩

/-- Witness for C7 at a concrete qualified leaf: requalifying
`a.col > $1` onto table `t2`, rendered against default table `users`. -/
theorem C7_filter_on_witness :
    renderExpr (Filter.into_expr "users"
        ((Filter.Gt (some "a") "col" (SeaValue.int (some 5))).on "t2")) =
      (renderExpr (Filter.into_expr "users"
        (Filter.Gt (some "a") "col" (SeaValue.int (some 5))))).map
        (requalify (quoted_column "a" "col") (quoted_column "t2" "col")) := by
  have h := (C7_filter_on (Filter.Gt (some "a") "col" (SeaValue.int (some 5))) "t2" "users").2
    (by decide)
  exact h.2.2 "col" (by decide)

/-! ## Claim C8 -/

theorem leftNoParen_and (l : SimpleExpr) : leftNoParen l .and = isAndBinary l := by
  cases l with
  | binary a op b => cases op <;> rfl
  | custom s => rfl
  | value v => rfl
  | keywordNull => rfl
  | tuple vs => rfl
  | unaryNot e => rfl

theorem leftNoParen_or (l : SimpleExpr) : leftNoParen l .or = isOrBinary l := by
  cases l with
  | binary a op b => cases op <;> rfl
  | custom s => rfl
  | value v => rfl
  | keywordNull => rfl
  | tuple vs => rfl
  | unaryNot e => rfl

theorem into_expr_And (d : String) (fs : List Filter) :
    Filter.into_expr d (.And fs) =
      (match fs.map (Filter.into_expr d) with
       | [] => SimpleExpr.value (.bool (some true))
       | first :: rest => rest.foldl (fun a b => .binary a .and b) first) := by
  rw [Filter.into_expr, List.attach_map_val]

theorem into_expr_Or (d : String) (fs : List Filter) :
    Filter.into_expr d (.Or fs) =
      (match fs.map (Filter.into_expr d) with
       | [] => SimpleExpr.value (.bool (some false))
       | first :: rest => rest.foldl (fun a b => .binary a .or b) first) := by
  rw [Filter.into_expr, List.attach_map_val]

theorem renderExpr_and_step (e g : SimpleExpr) :
    renderExpr (.binary e .and g) =
      (if isAndBinary e then renderExpr e else parenWrap (renderExpr e)) ++
        ([Frag.text " AND "] ++ parenWrap (renderExpr g)) := by
  rw [renderExpr,
    if_neg (by simp [show (BinOper.and == BinOper.inOp && (g == SimpleExpr.tuple []))
      = false from rfl]),
    leftNoParen_and e,
    show (" " ++ BinOper.and.render ++ " ") = " AND " from rfl]
  simp [parenWrap, List.append_assoc]

theorem renderExpr_or_step (e g : SimpleExpr) :
    renderExpr (.binary e .or g) =
      (if isOrBinary e then renderExpr e else parenWrap (renderExpr e)) ++
        ([Frag.text " OR "] ++ parenWrap (renderExpr g)) := by
  rw [renderExpr,
    if_neg (by simp [show (BinOper.or == BinOper.inOp && (g == SimpleExpr.tuple []))
      = false from rfl]),
    leftNoParen_or e,
    show (" " ++ BinOper.or.render ++ " ") = " OR " from rfl]
  simp [parenWrap, List.append_assoc]

theorem render_and_foldl (es : List SimpleExpr) :
    ∀ e, es ≠ [] →
      renderExpr (es.foldl (fun a b => .binary a .and b) e) =
        (if isAndBinary e then renderExpr e else parenWrap (renderExpr e)) ++
          es.flatMap (fun y => [Frag.text " AND "] ++ parenWrap (renderExpr y)) := by
  induction es with
  | nil => intro e h; exact absurd rfl h
  | cons g gs ih =>
      intro e _
      cases gs with
      | nil =>
          show renderExpr (.binary e .and g) = _
          rw [renderExpr_and_step]
          simp
      | cons g2 rest =>
          show renderExpr ((g2 :: rest).foldl _ (.binary e .and g)) = _
          rw [ih (.binary e .and g) (by simp)]
          rw [show isAndBinary (.binary e .and g) = true from rfl]
          rw [if_pos rfl, renderExpr_and_step]
          simp [List.append_assoc]

theorem render_or_foldl (es : List SimpleExpr) :
    ∀ e, es ≠ [] →
      renderExpr (es.foldl (fun a b => .binary a .or b) e) =
        (if isOrBinary e then renderExpr e else parenWrap (renderExpr e)) ++
          es.flatMap (fun y => [Frag.text " OR "] ++ parenWrap (renderExpr y)) := by
  induction es with
  | nil => intro e h; exact absurd rfl h
  | cons g gs ih =>
      intro e _
      cases gs with
      | nil =>
          show renderExpr (.binary e .or g) = _
          rw [renderExpr_or_step]
          simp
      | cons g2 rest =>
          show renderExpr ((g2 :: rest).foldl _ (.binary e .or g)) = _
          rw [ih (.binary e .or g) (by simp)]
          rw [show isOrBinary (.binary e .or g) = true from rfl]
          rw [if_pos rfl, renderExpr_or_step]
          simp [List.append_assoc]

/-- **C8.**  For every default table `d`: `Filter::And([])` converts to the
constant `true` and `Filter::Or([])` to the constant `false` (rendered, under
this parameterised writer, as a bound boolean parameter); a non-empty
`And`/`Or` list folds its members left-associatively in list order, and its
rendering is the members' renderings joined by `AND`/`OR` in list order
(`andChainFrags`/`orChainFrags`). -/
theorem C8_empty_and_or_and_folds (d : String) (fs : List Filter) :
    Filter.into_expr d (.And []) = .value (.bool (some true)) ∧
    Filter.into_expr d (.Or []) = .value (.bool (some false)) ∧
    (∀ f rest, Filter.into_expr d (.And (f :: rest)) =
      (rest.map (Filter.into_expr d)).foldl (fun a b => .binary a .and b)
        (Filter.into_expr d f)) ∧
    (∀ f rest, Filter.into_expr d (.Or (f :: rest)) =
      (rest.map (Filter.into_expr d)).foldl (fun a b => .binary a .or b)
        (Filter.into_expr d f)) ∧
    renderExpr (Filter.into_expr d (.And fs)) = andChainFrags (fs.map (Filter.into_expr d)) ∧
    renderExpr (Filter.into_expr d (.Or fs)) = orChainFrags (fs.map (Filter.into_expr d)) := by
  refine ⟨by rw [into_expr_And]; rfl, by rw [into_expr_Or]; rfl, ?_, ?_, ?_, ?_⟩
  · intro f rest
    rw [into_expr_And, List.map_cons]
  · intro f rest
    rw [into_expr_Or, List.map_cons]
  · rw [into_expr_And]
    cases hm : fs.map (Filter.into_expr d) with
    | nil => rfl
    | cons e es =>
        cases es with
        | nil => rfl
        | cons e2 rest =>
            show renderExpr ((e2 :: rest).foldl _ e) = _
            rw [render_and_foldl (e2 :: rest) e (by simp)]
            rfl
  · rw [into_expr_Or]
    cases hm : fs.map (Filter.into_expr d) with
    | nil => rfl
    | cons e es =>
        cases es with
        | nil => rfl
        | cons e2 rest =>
            show renderExpr ((e2 :: rest).foldl _ e) = _
            rw [render_or_foldl (e2 :: rest) e (by simp)]
            rfl

/-! ## WebSocket send (C3) -/

theorem send_snd_eq (conns : ConnectionMap) (ev : Event) (gs : Option (List String)) :
    (WebSocketDefault.send conns ev gs).2 = conns.map (fun pc =>
      if WebSocketDefault.targeted gs pc.2 then
        match pc.2.sender.trySend with
        | .ok ch => (pc.1, { pc.2 with sender := ch })
        | .error _ => pc
      else pc) := by
  simp only [WebSocketDefault.send]
  split <;> rfl

theorem send_snd_map_fst (conns : ConnectionMap) (ev : Event)
    (gs : Option (List String)) :
    ((WebSocketDefault.send conns ev gs).2).map Prod.fst = conns.map Prod.fst := by
  rw [send_snd_eq, List.map_map]
  induction conns with
  | nil => rfl
  | cons pc rest ih =>
      simp only [List.map_cons, ih]
      congr 1
      simp only [Function.comp]
      split
      · split <;> rfl
      · rfl

theorem send_snd_length (conns : ConnectionMap) (ev : Event)
    (gs : Option (List String)) :
    ((WebSocketDefault.send conns ev gs).2).length = conns.length := by
  have h := congrArg List.length (send_snd_map_fst conns ev gs)
  simpa using h

theorem send_fst_eq (conns : ConnectionMap) (ev : Event) (gs : Option (List String)) :
    (WebSocketDefault.send conns ev gs).1 =
      (if 0 < (((conns.filter (fun pc => WebSocketDefault.targeted gs pc.2)).map
            (fun pc => pc.2.sender)).filter Channel.trySendFails).length then
        .error "failed to enqueue websocket payload"
      else .ok ()) := by
  simp only [WebSocketDefault.send]
  split <;> rfl

theorem send_failures_nil_iff (conns : ConnectionMap) (gs : Option (List String)) :
    (((conns.filter (fun pc => WebSocketDefault.targeted gs pc.2)).map
        (fun pc => pc.2.sender)).filter Channel.trySendFails) = [] ↔
      ∀ pc ∈ conns, WebSocketDefault.targeted gs pc.2 = true →
        pc.2.sender.trySendFails = false := by
  rw [List.filter_eq_nil_iff]
  constructor
  · intro h pc hmem htgt
    have hm : pc.2.sender ∈ (conns.filter
        (fun pc => WebSocketDefault.targeted gs pc.2)).map (fun pc => pc.2.sender) :=
      List.mem_map.mpr ⟨pc, List.mem_filter.mpr ⟨hmem, htgt⟩, rfl⟩
    have := h _ hm
    simpa using this
  · intro h ch hch
    obtain ⟨pc, hpc, hrfl⟩ := List.mem_map.mp hch
    obtain ⟨hmem, htgt⟩ := List.mem_filter.mp hpc
    rw [← hrfl]
    simp [h pc hmem htgt]

/-- C3: the spec's pruning sentence is refuted on a one-peer map whose
outbound channel is closed: `send` leaves the closed peer in the map (it
removes nothing), so after the call the map still holds a peer whose
channel reports closed. -/
theorem C3_no_pruning_counterexample :
    (WebSocketDefault.send
        [(0, { groups := [], sender := { capacity := 256, queued := 0, closed := true } })]
        { data := [], group := none } none).2
      = [(0, { groups := [], sender := { capacity := 256, queued := 0, closed := true } })] ∧
    ((WebSocketDefault.send
        [(0, { groups := [], sender := { capacity := 256, queued := 0, closed := true } })]
        { data := [], group := none } none).2.all
      (fun pc => !pc.2.sender.closed)) = false := by
  exact ⟨rfl, rfl⟩

/-- C3 (amended): `send` targets every connection when `groups` is absent,
otherwise exactly those whose group set intersects the requested set; the
map's membership is untouched (no pruning of closed peers); and the
aggregated error is surfaced if and only if some targeted enqueue failed. -/
theorem C3_send_amended (conns : ConnectionMap) (ev : Event)
    (gs : Option (List String)) :
    ((WebSocketDefault.send conns ev gs).2).map Prod.fst = conns.map Prod.fst ∧
    (∀ c : Connection, WebSocketDefault.targeted none c = true) ∧
    (∀ (gset : List String) (c : Connection),
      (WebSocketDefault.targeted (some gset) c = true ↔ ∃ g ∈ c.groups, g ∈ gset)) ∧
    ((WebSocketDefault.send conns ev gs).1 = .ok () ↔
      ∀ pc ∈ conns, WebSocketDefault.targeted gs pc.2 = true →
        pc.2.sender.trySendFails = false) := by
  refine ⟨send_snd_map_fst conns ev gs, fun c => rfl, ?_, ?_⟩
  · intro gset c
    simp [WebSocketDefault.targeted, List.any_eq_true, List.contains, List.elem_iff]
  · rw [send_fst_eq]
    by_cases hL : 0 < (((conns.filter
        (fun pc => WebSocketDefault.targeted gs pc.2)).map
        (fun pc => pc.2.sender)).filter Channel.trySendFails).length
    · rw [if_pos hL]
      constructor
      · intro h
        exact absurd h (by simp)
      · intro hall
        exfalso
        have hnil := (send_failures_nil_iff conns gs).mpr hall
        rw [hnil] at hL
        simp at hL
    · rw [if_neg hL]
      have hnil : (((conns.filter
          (fun pc => WebSocketDefault.targeted gs pc.2)).map
          (fun pc => pc.2.sender)).filter Channel.trySendFails) = [] := by
        cases hc : (((conns.filter
            (fun pc => WebSocketDefault.targeted gs pc.2)).map
            (fun pc => pc.2.sender)).filter Channel.trySendFails) with
        | nil => rfl
        | cons x xs => rw [hc] at hL; simp at hL
      constructor
      · intro _
        exact (send_failures_nil_iff conns gs).mp hnil
      · intro _
        rfl

/-! ## WebSocket connection cap and accept path (C4) -/

theorem insertConn_length (m : ConnectionMap) (a : Addr) (c : Connection) :
    (WebSocketDefault.insertConn m a c).length ≤ m.length + 1 := by
  unfold WebSocketDefault.insertConn
  split
  · simp
  · simp

theorem reachable_length_le (m : ConnectionMap) (hm : WebSocketDefault.Reachable m) :
    m.length ≤ MAX_CONNECTIONS := by
  induction hm with
  | init => exact Nat.zero_le _
  | accept m a hs tx h ih =>
      cases hs with
      | false => simpa [WebSocketDefault.acceptConnection] using ih
      | true =>
          cases hss : WebSocketDefault.save_socket m a tx with
          | error e => simpa [WebSocketDefault.acceptConnection, hss] using ih
          | ok m2 =>
              simp only [WebSocketDefault.acceptConnection, if_true, hss]
              unfold WebSocketDefault.save_socket at hss
              split at hss
              · simp at hss
              · next hge =>
                  injection hss with hX
                  rw [← hX]
                  exact le_trans (insertConn_length m a { groups := [], sender := tx })
                    (Nat.succ_le_of_lt (Nat.lt_of_not_le hge))
  | disconnect m a h ih =>
      exact le_trans (List.length_filter_le _ _) ih
  | subscribe m a gs h ih =>
      simpa [WebSocketDefault.setGroups] using ih
  | sendStep m ev gs h ih =>
      rw [send_snd_length m ev gs]
      exact ih

theorem accept_full_rejects (m : ConnectionMap) (a : Addr) (tx : Channel)
    (hfull : MAX_CONNECTIONS ≤ m.length) :
    WebSocketDefault.acceptConnection m a true tx
      = ([.handshake true, .rejected], m) := by
  simp [WebSocketDefault.acceptConnection, WebSocketDefault.save_socket, hfull]

/-- C4: the spec's "rejected without performing the WebSocket handshake"
sentence is refuted: on a map already holding `MAX_CONNECTIONS` peers the
accept path still performs (and completes) the handshake — `accept_async`
runs before `handle_socket` ever calls `save_socket` — so the observable
trace is not a bare rejection and contains a successful handshake step. -/
theorem C4_handshake_before_reject_counterexample :
    (WebSocketDefault.acceptConnection fullConnMap 2048 true
        { capacity := 256, queued := 0, closed := false }).1 ≠ [.rejected] ∧
    WebSocketDefault.AcceptStep.handshake true ∈
      (WebSocketDefault.acceptConnection fullConnMap 2048 true
        { capacity := 256, queued := 0, closed := false }).1 := by
  have hlen : MAX_CONNECTIONS ≤ fullConnMap.length := by
    simp [fullConnMap]
  have h := accept_full_rejects fullConnMap 2048
    { capacity := 256, queued := 0, closed := false } hlen
  rw [h]
  exact ⟨by decide, by decide⟩

/-- C4 (amended): every reachable connection-map state of the default
WebSocket server holds at most `MAX_CONNECTIONS = 1024` connections, and a
connection arriving while the map is full is rejected — but only after the
WebSocket handshake has been performed (`save_socket` runs inside
`handle_socket`, which `listen` spawns only once `accept_async`
succeeds). -/
theorem C4_capacity_amended :
    (∀ m : ConnectionMap, WebSocketDefault.Reachable m →
      m.length ≤ MAX_CONNECTIONS) ∧
    (∀ (m : ConnectionMap) (a : Addr) (tx : Channel),
      MAX_CONNECTIONS ≤ m.length →
        WebSocketDefault.acceptConnection m a true tx
          = ([.handshake true, .rejected], m)) := by
  exact ⟨reachable_length_le, accept_full_rejects⟩

/-- The cap theorem applied at the empty initial map and the rejection
behaviour applied at a concrete full map. -/
theorem C4_capacity_amended_witness :
    ([] : ConnectionMap).length ≤ MAX_CONNECTIONS ∧
    WebSocketDefault.acceptConnection fullConnMap 2048 true
        { capacity := 256, queued := 0, closed := false }
      = ([.handshake true, .rejected], fullConnMap) := by
  refine ⟨C4_capacity_amended.1 [] WebSocketDefault.Reachable.init, ?_⟩
  have hlen : MAX_CONNECTIONS ≤ fullConnMap.length := by
    simp [fullConnMap]
  exact C4_capacity_amended.2 fullConnMap 2048
    { capacity := 256, queued := 0, closed := false } hlen

/-! ## WebSocket subscribe protocol (C6) -/

/-- C6: a text frame parsing as JSON with `"type": "subscribe"` and a
`"groups"` array replaces the peer's group set (string entries only) and
publishes no event; a frame whose `"type"` string is not `"subscribe"`,
one without a `"groups"` array, and an unparseable frame are each published
on the broadcast bus as one event carrying the text's UTF-8 bytes with no
group. -/
theorem C6_subscribe_protocol (conns : ConnectionMap) (peer : Addr) (text : String) :
    (∀ (j : Json) (gs : List Json),
      j.get "type" = some (.str "subscribe") →
      j.get "groups" = some (.arr gs) →
        WebSocketDefault.handleTextFrame conns peer (some j) text
          = (WebSocketDefault.setGroups conns peer (gs.filterMap Json.asStr), [])) ∧
    (∀ j : Json, (j.get "type").bind Json.asStr ≠ some "subscribe" →
        WebSocketDefault.handleTextFrame conns peer (some j) text
          = (conns, [{ data := text.toUTF8.toList, group := none }])) ∧
    (∀ j : Json, (j.get "groups").bind Json.asArr = none →
        WebSocketDefault.handleTextFrame conns peer (some j) text
          = (conns, [{ data := text.toUTF8.toList, group := none }])) ∧
    WebSocketDefault.handleTextFrame conns peer none text
      = (conns, [{ data := text.toUTF8.toList, group := none }]) := by
  refine ⟨?_, ?_, ?_, rfl⟩
  · intro j gs h1 h2
    simp [WebSocketDefault.handleTextFrame, h1, h2, Json.asStr, Json.asArr]
  · intro j hne
    have hb : ((j.get "type").bind Json.asStr == some "subscribe") = false := by
      rw [beq_eq_false_iff_ne]
      exact hne
    simp [WebSocketDefault.handleTextFrame, hb]
  · intro j hgs
    simp only [WebSocketDefault.handleTextFrame]
    split
    · rw [hgs]
    · rfl

/-- The subscribe branch exercised on a concrete frame carrying a mixed
groups array: only the string entries survive. -/
theorem C6_subscribe_protocol_witness :
    Json.get (.obj [("type", .str "subscribe"), ("groups", .arr [.str "lobby", .num 3])])
        "type" = some (.str "subscribe") ∧
    Json.get (.obj [("type", .str "subscribe"), ("groups", .arr [.str "lobby", .num 3])])
        "groups" = some (.arr [.str "lobby", .num 3]) ∧
    WebSocketDefault.handleTextFrame
        [(0, { groups := [], sender := { capacity := 256, queued := 0, closed := false } })]
        0 (some (.obj [("type", .str "subscribe"), ("groups", .arr [.str "lobby", .num 3])]))
        "txt"
      = (WebSocketDefault.setGroups
          [(0, { groups := [], sender := { capacity := 256, queued := 0, closed := false } })]
          0 (([.str "lobby", .num 3] : List Json).filterMap Json.asStr), []) := by
  refine ⟨rfl, rfl, ?_⟩
  exact (C6_subscribe_protocol
      [(0, { groups := [], sender := { capacity := 256, queued := 0, closed := false } })]
      0 "txt").1
    (.obj [("type", .str "subscribe"), ("groups", .arr [.str "lobby", .num 3])])
    [.str "lobby", .num 3] rfl rfl

/-! ## In-memory key-value backend (C5) -/

theorem find_append_of_none {α : Type} {p : α → Bool} (m l : List α)
    (h : m.find? p = none) : (m ++ l).find? p = l.find? p := by
  induction m with
  | nil => rfl
  | cons x rest ih =>
      rw [List.cons_append]
      have hp : ¬ p x = true := by
        intro hp
        rw [List.find?_cons_of_pos _ hp] at h
        simp at h
      rw [List.find?_cons_of_neg _ hp]
      apply ih
      rw [List.find?_cons_of_neg _ hp] at h
      exact h

theorem find_map_insert (m : List (String × List UInt8)) (key : String)
    (value : List UInt8) (hany : m.any (fun kv => kv.1 == key) = true) :
    ((m.map (fun kv => if kv.1 == key then (key, value) else kv)).find?
      (fun kv => kv.1 == key)) = some (key, value) := by
  induction m with
  | nil => simp at hany
  | cons kv rest ih =>
      simp only [List.map_cons]
      by_cases hk : (kv.1 == key) = true
      · rw [if_pos hk]
        exact List.find?_cons_of_pos _ (by simp)
      · rw [if_neg hk]
        rw [List.find?_cons_of_neg _ (by simpa using hk)]
        apply ih
        simp only [List.any_cons, hk] at hany
        simpa using hany

theorem entryInsert_find (m : List (String × List UInt8)) (key : String)
    (value : List UInt8) :
    ((InMemBucket.entryInsert m key value).find? (fun kv => kv.1 == key))
      = some (key, value) := by
  unfold InMemBucket.entryInsert
  split
  · next hany => exact find_map_insert m key value hany
  · next hany =>
      have hnone : m.find? (fun kv => kv.1 == key) = none := by
        rw [List.find?_eq_none]
        intro x hx hpx
        exact absurd (List.any_eq_true.mpr ⟨x, hx, hpx⟩) hany
      rw [find_append_of_none m _ hnone]
      exact List.find?_cons_of_pos _ (by simp)

theorem find_map_bucket (store : KvStore) (bucket key : String)
    (value : List UInt8) (hany : store.any (fun b => b.1 == bucket) = true) :
    ∃ m0, ((store.map (fun b =>
        if b.1 == bucket then (b.1, InMemBucket.entryInsert b.2 key value) else b)).find?
      (fun b => b.1 == bucket)) = some (bucket, InMemBucket.entryInsert m0 key value) := by
  induction store with
  | nil => simp at hany
  | cons b rest ih =>
      simp only [List.map_cons]
      by_cases hb : (b.1 == bucket) = true
      · refine ⟨b.2, ?_⟩
        rw [if_pos hb]
        rw [List.find?_cons_of_pos _ (by simpa using hb)]
        have hb' : b.1 = bucket := by simpa using hb
        rw [hb']
      · rw [if_neg hb]
        rw [List.find?_cons_of_neg _ (by simpa using hb)]
        apply ih
        simp only [List.any_cons, hb] at hany
        simpa using hany

theorem get_set_same (store : KvStore) (bucket key : String) (value : List UInt8) :
    InMemBucket.get (InMemBucket.set store bucket key value) bucket key
      = some value := by
  unfold InMemBucket.set
  split
  · next hany =>
      obtain ⟨m0, hfind⟩ := find_map_bucket store bucket key value hany
      unfold InMemBucket.get InMemBucket.bucketOf
      rw [hfind]
      simp [entryInsert_find]
  · next hany =>
      unfold InMemBucket.get InMemBucket.bucketOf
      have hnone : store.find? (fun b => b.1 == bucket) = none := by
        rw [List.find?_eq_none]
        intro x hx hpx
        exact absurd (List.any_eq_true.mpr ⟨x, hx, hpx⟩) hany
      rw [find_append_of_none store _ hnone]
      rw [List.find?_cons_of_pos _ (by simp)]
      simp [entryInsert_find]

/-- C5: the host-side `set` of the default in-memory state store returns
the previous value under the key (`some old` when present, `none`
otherwise), produces the same result for any TTL argument (the backend
takes no TTL and hence ignores it), and actually stores the new value. -/
theorem C5_set_previous_and_ttl (store : KvStore) (bucket key : String)
    (value v0 : List UInt8) (ttl ttl1 ttl2 : Option Nat) :
    InMemBucket.hostSet store bucket key value ttl1
      = InMemBucket.hostSet store bucket key value ttl2 ∧
    (InMemBucket.hostSet store bucket key value ttl).1
      = InMemBucket.get store bucket key ∧
    (InMemBucket.get store bucket key = none →
      (InMemBucket.hostSet store bucket key value ttl).1 = none) ∧
    (InMemBucket.hostSet (InMemBucket.set store bucket key v0) bucket key value ttl).1
      = some v0 ∧
    InMemBucket.get (InMemBucket.hostSet store bucket key value ttl).2 bucket key
      = some value := by
  refine ⟨rfl, rfl, fun h => h, ?_, ?_⟩
  · show InMemBucket.get (InMemBucket.set store bucket key v0) bucket key = some v0
    exact get_set_same store bucket key v0
  · show InMemBucket.get (InMemBucket.set store bucket key value) bucket key = some value
    exact get_set_same store bucket key value

/-- The previous-value behaviour on a concrete store: `none` on a fresh
key, `some` of the old bytes after one `set`. -/
theorem C5_set_previous_and_ttl_witness :
    InMemBucket.get [] "b" "k" = none ∧
    (InMemBucket.hostSet [] "b" "k" [7] (some 60)).1 = none ∧
    (InMemBucket.hostSet (InMemBucket.set [] "b" "k" [1]) "b" "k" [7] none).1
      = some [1] := by
  refine ⟨rfl, ?_, ?_⟩
  · exact (C5_set_previous_and_ttl [] "b" "k" [7] [1] (some 60) (some 60) (some 60)).2.2.1 rfl
  · exact (C5_set_previous_and_ttl [] "b" "k" [7] [1] none none none).2.2.2.1

/-! ## Forbidden response headers (C9) -/

theorem foldl_removeHeader (names : List String) (hs : Headers) :
    names.foldl removeHeader hs
      = hs.filter (fun h => !(names.contains h.1)) := by
  induction names generalizing hs with
  | nil => simp
  | cons n rest ih =>
      rw [List.foldl_cons, ih]
      unfold removeHeader
      rw [List.filter_filter]
      apply List.filter_congr
      intro x hx
      simp only [List.contains_cons, Bool.not_or, beq_eq_decide, Bool.and_comm]

/-- C9: the response post-processing of the default outbound HTTP backend
removes exactly the entries named by one of the nine forbidden hop-by-hop
headers — the surviving header list is the original filtered to the
non-forbidden names (so every other header is returned unchanged, in
order), and no forbidden name remains. -/
theorem C9_forbidden_headers (hs : Headers) :
    stripForbiddenResponseHeaders hs
      = hs.filter (fun h => !(FORBIDDEN_HEADERS.contains h.1)) ∧
    (stripForbiddenResponseHeaders hs).all
      (fun h => !(FORBIDDEN_HEADERS.contains h.1)) = true ∧
    FORBIDDEN_HEADERS.length = 9 := by
  have hmain : stripForbiddenResponseHeaders hs
      = hs.filter (fun h => !(FORBIDDEN_HEADERS.contains h.1)) :=
    foldl_removeHeader FORBIDDEN_HEADERS hs
  refine ⟨hmain, ?_, rfl⟩
  rw [hmain, List.all_eq_true]
  intro x hx
  exact (List.mem_filter.mp hx).2

/-! ## Optional entity fields (C10) -/

/-- C10: fetching an `Option<T>` field yields `Ok(None)` both when the
column carries a null-tagged wire value and when the column is entirely
absent from the row; when it is present and non-null the `T` fetch decides
the result.  A missing column surfaces the `missing column` error only
through the non-optional fetch. -/
theorem C10_optional_fetch (row : Row) (col : String) {α : Type}
    (fetchT : Row → String → Except String α) :
    (row.fields.find? (fun field => field.name == col) = none →
      fetchOptional fetchT row col = .ok none ∧
      fetchI32 row col = .error ("missing column '" ++ col ++ "'")) ∧
    (∀ f, row.fields.find? (fun field => field.name == col) = some f →
      is_null f.value = true →
      fetchOptional fetchT row col = .ok none) ∧
    (∀ f, row.fields.find? (fun field => field.name == col) = some f →
      is_null f.value = false →
      fetchOptional fetchT row col = (fetchT row col).map some) := by
  refine ⟨?_, ?_, ?_⟩
  · intro hnone
    have hrf : row_field row col = .error ("missing column '" ++ col ++ "'") := by
      unfold row_field
      rw [hnone]
    constructor
    · unfold fetchOptional
      rw [hrf]
    · unfold fetchI32
      rw [hrf]
      rfl
  · intro f hf hnull
    have hrf : row_field row col = .ok f.value := by
      unfold row_field
      rw [hf]
    unfold fetchOptional
    rw [hrf]
    simp [hnull]
  · intro f hf hnn
    have hrf : row_field row col = .ok f.value := by
      unfold row_field
      rw [hf]
    unfold fetchOptional
    rw [hrf]
    simp [hnn]

/-- Optional fetch evaluated on concrete rows: a row without the column
and a row whose column is a null-tagged string. -/
theorem C10_optional_fetch_witness :
    (Row.mk [⟨"id", .int32 (some 7)⟩]).fields.find?
        (fun field => field.name == "name") = none ∧
    fetchOptional fetchI32 (Row.mk [⟨"id", .int32 (some 7)⟩]) "name" = .ok none ∧
    fetchI32 (Row.mk [⟨"id", .int32 (some 7)⟩]) "name"
      = .error ("missing column '" ++ "name" ++ "'") ∧
    fetchOptional fetchI32 (Row.mk [⟨"nick", .str none⟩]) "nick" = .ok none := by
  have h1 := (@C10_optional_fetch (Row.mk [⟨"id", .int32 (some 7)⟩]) "name" Int fetchI32).1 rfl
  have h2 := (@C10_optional_fetch (Row.mk [⟨"nick", .str none⟩]) "nick" Int fetchI32).2.1
    ⟨"nick", .str none⟩ rfl rfl
  exact ⟨rfl, h1.1, h1.2, h2⟩

end Omnia

